import Mathlib

/-!
Verification development for the Rust-git repository core.

The Rust sources are shallowly embedded: the file system is a finite map from
segment paths to byte lists, bytes are natural numbers below 256, zlib is an
abstract compressor/decompressor pair passed explicitly, and SHA-1 is
implemented concretely.  Each embedded definition mirrors one function of the
sources (module and function named in its doc comment).
-/

set_option maxRecDepth 10000

namespace RustGit

/-- Bytes are modelled as natural numbers (values below 256 where it matters). -/
abbrev Bytes := List Nat

/-- UTF-8 bytes of a string; for the ASCII strings used by the repository this
equals the code points. -/
def strBytes (s : String) : Bytes := s.data.map Char.toNat

/-- Decode bytes into a string when they are all ASCII; mirrors the use of
str::from_utf8 on headers, which in these sources are always ASCII. -/
def bytesStr? (b : Bytes) : Option String :=
  if b.all (fun x => x < 128) then some (String.mk (b.map Char.ofNat)) else none

/-- Lowercase hexadecimal digit for a value below 16. -/
def hexDigit (n : Nat) : Char :=
  if n < 10 then Char.ofNat (48 + n) else Char.ofNat (87 + n)

/-- Lowercase hexadecimal rendering of a byte list, as produced by hex::encode. -/
def hexEncode (b : Bytes) : String :=
  String.mk (b.foldr (fun x acc => hexDigit (x / 16) :: hexDigit (x % 16) :: acc) [])

/-- Value of one hexadecimal digit character, if any. -/
def hexVal? (c : Char) : Option Nat :=
  if 48 ≤ c.toNat ∧ c.toNat ≤ 57 then some (c.toNat - 48)
  else if 97 ≤ c.toNat ∧ c.toNat ≤ 102 then some (c.toNat - 87)
  else if 65 ≤ c.toNat ∧ c.toNat ≤ 70 then some (c.toNat - 55)
  else none

/-- Decode a hexadecimal string into bytes, two digits per byte, as hex::decode. -/
def hexDecode? (s : String) : Option Bytes :=
  let rec go : List Char → Option Bytes
    | [] => some []
    | [_] => none
    | c1 :: c2 :: rest =>
      match hexVal? c1, hexVal? c2, go rest with
      | some v1, some v2, some bs => some ((v1 * 16 + v2) :: bs)
      | _, _, _ => none
  go s.data

/-- Rotate a 32-bit word (given below 2 ^ 32) left by n bits, 0 < n < 32. -/
def rotl (n x : Nat) : Nat :=
  (x * 2 ^ n) % 4294967296 + x / 2 ^ (32 - n)

/-- Big-endian bytes of a value, fixed width. -/
def toBE (width x : Nat) : Bytes :=
  (List.range width).map (fun i => x / 2 ^ (8 * (width - 1 - i)) % 256)

/-- Big-endian value of a byte list. -/
def fromBE (b : Bytes) : Nat := b.foldl (fun a x => a * 256 + x) 0

/-- SHA-1 padding: append 0x80, zeros to 56 mod 64, then the bit length. -/
def sha1Pad (msg : Bytes) : Bytes :=
  let z := (56 + 64 - (msg.length + 1) % 64) % 64
  msg ++ 128 :: List.replicate z 0 ++ toBE 8 (msg.length * 8)

/-- Split a byte list into chunks of n bytes (fuel-driven). -/
def chunksAux (n : Nat) : Nat → Bytes → List Bytes
  | 0, _ => []
  | _, [] => []
  | fuel + 1, l => l.take n :: chunksAux n fuel (l.drop n)

def chunks (n : Nat) (l : Bytes) : List Bytes := chunksAux n l.length l

/-- Message-schedule extension: repeatedly append
rotl 1 (w[t-3] xor w[t-8] xor w[t-14] xor w[t-16]). -/
def sha1Extend : Nat → List Nat → List Nat
  | 0, w => w
  | k + 1, w =>
    let t := w.length
    sha1Extend k
      (w ++ [rotl 1 (((w.getD (t - 3) 0) ^^^ (w.getD (t - 8) 0)) ^^^
        ((w.getD (t - 14) 0) ^^^ (w.getD (t - 16) 0)))])

/-- One SHA-1 round on the live state. -/
def sha1Round (i : Nat) (st : Nat × Nat × Nat × Nat × Nat) (wi : Nat) :
    Nat × Nat × Nat × Nat × Nat :=
  let (a, b, c, d, e) := st
  let f :=
    if i < 20 then (b &&& c) ||| ((b ^^^ 4294967295) &&& d)
    else if i < 40 then (b ^^^ c) ^^^ d
    else if i < 60 then ((b &&& c) ||| (b &&& d)) ||| (c &&& d)
    else (b ^^^ c) ^^^ d
  let k :=
    if i < 20 then 1518500249
    else if i < 40 then 1859775393
    else if i < 60 then 2400959708
    else 3395469782
  let temp := (rotl 5 a + f + e + k + wi) % 4294967296
  (temp, a, rotl 30 b, c, d)

/-- Process one 64-byte chunk. -/
def sha1Chunk (h : Nat × Nat × Nat × Nat × Nat) (chunk : Bytes) :
    Nat × Nat × Nat × Nat × Nat :=
  let w := sha1Extend 64 ((chunks 4 chunk).map fromBE)
  let (h0, h1, h2, h3, h4) := h
  let fin := (w.enum).foldl (fun st p => sha1Round p.1 st p.2) (h0, h1, h2, h3, h4)
  let (a, b, c, d, e) := fin
  ((h0 + a) % 4294967296, (h1 + b) % 4294967296, (h2 + c) % 4294967296,
    (h3 + d) % 4294967296, (h4 + e) % 4294967296)

/-- SHA-1 digest of a byte list: 20 bytes. -/
def sha1 (msg : Bytes) : Bytes :=
  let init : Nat × Nat × Nat × Nat × Nat :=
    (1732584193, 4023233417, 2562383102, 271733878, 3285377520)
  let (h0, h1, h2, h3, h4) := (chunks 64 (sha1Pad msg)).foldl sha1Chunk init
  toBE 4 h0 ++ toBE 4 h1 ++ toBE 4 h2 ++ toBE 4 h3 ++ toBE 4 h4

/-! String utilities mirroring the Rust str operations used by the sources.
They are defined on the character list of a string so that their behaviour is
provable by list induction; for the ASCII data handled by the repository they
agree with the Rust byte-level operations. -/

/-- Whitespace test as used by str::trim (ASCII cases). -/
def isWs (c : Char) : Bool := c.isWhitespace

/-- Embedding of str::starts_with. -/
def rustStartsWith (s pre : String) : Bool := pre.data.isPrefixOf s.data

/-- Embedding of str::ends_with. -/
def rustEndsWith (s suf : String) : Bool := suf.data.isSuffixOf s.data

/-- Drop the first prefix.length characters; used after a starts_with check to
model str::trim_start_matches / strip_prefix on a single occurrence. -/
def rustDropPre (s pre : String) : String := String.mk (s.data.drop pre.data.length)

/-- Embedding of str::trim_end. -/
def rustTrimEnd (s : String) : String :=
  String.mk ((s.data.reverse.dropWhile isWs).reverse)

/-- Embedding of str::trim. -/
def rustTrim (s : String) : String :=
  String.mk (((s.data.dropWhile isWs).reverse.dropWhile isWs).reverse)

/-- Split a list at every occurrence of an element (like str::split on one
character: adjacent separators yield empty pieces, the empty list yields one
empty piece). -/
def splitOnElem {α : Type} [DecidableEq α] (sep : α) : List α → List (List α)
  | [] => [[]]
  | a :: rest =>
    let r := splitOnElem sep rest
    if a = sep then [] :: r
    else
      match r with
      | [] => [[a]]
      | h :: t => (a :: h) :: t

/-- Embedding of str::split(' '). -/
def rustSplitSpace (s : String) : List String :=
  (splitOnElem ' ' s.data).map String.mk

/-- Embedding of str::split('/'); used to interpret a slash-joined name as
file-system path segments. -/
def pathOf (s : String) : List String := (splitOnElem '/' s.data).map String.mk

/-- Embedding of str::lines (the sources never contain carriage returns). -/
def rustLines (s : String) : List String :=
  let parts := (splitOnElem '\n' s.data).map String.mk
  match parts.getLast? with
  | some last => if last = "" then parts.dropLast else parts
  | none => parts

/-- Total lexicographic order on strings by code point, matching the Ord
instance of Rust String (byte order on UTF-8 equals code-point order). -/
def charsLe : List Char → List Char → Bool
  | [], _ => true
  | _ :: _, [] => false
  | a :: as, b :: bs =>
    if a.toNat < b.toNat then true
    else if a.toNat = b.toNat then charsLe as bs
    else false

def rustStrLe (a b : String) : Bool := charsLe a.data b.data

/-- Lossy UTF-8 decoding (String::from_utf8_lossy); faithful for the ASCII
byte strings the repository produces. -/
def lossyStr (b : Bytes) : String :=
  String.mk (b.map (fun x => if x < 128 then Char.ofNat x else Char.ofNat 65533))

/-! File-system model: a flat finite map from segment paths to byte contents.
Joining paths is list append; a directory exists when some stored file lies
strictly below it. -/

abbrev Path := List String
abbrev FS := List (Path × Bytes)

def fsRead : FS → Path → Option Bytes
  | [], _ => none
  | (q, b) :: rest, p => if q = p then some b else fsRead rest p

/-- Overwriting write: the new binding shadows any earlier one, since fsRead
returns the first match and every other observation (children, directory
existence, removal) is insensitive to shadowed duplicates. -/
def fsWrite (fs : FS) (p : Path) (b : Bytes) : FS := (p, b) :: fs

def fsRemove (fs : FS) (p : Path) : FS :=
  fs.filter (fun kv => decide (kv.1 ≠ p))

/-- Remove a directory and everything below it (fs::remove_dir_all). -/
def fsRemoveDir (fs : FS) (p : Path) : FS :=
  fs.filter (fun kv => !(p.isPrefixOf kv.1))

/-- A directory exists when some file path lies strictly below it. -/
def fsDirExists (fs : FS) (p : Path) : Bool :=
  fs.any (fun kv => p.isPrefixOf kv.1 && decide (kv.1 ≠ p))

/-- Names of the direct children of a directory (read_dir; deterministic model
of an unspecified enumeration order). -/
def fsChildren (fs : FS) (dir : Path) : List String :=
  (fs.filterMap (fun kv =>
    if dir.isPrefixOf kv.1 then (kv.1.drop dir.length).head? else none)).dedup

/-! Zlib is treated as an abstract compressor/decompressor pair; theorems that
need the library contract take the round-trip property as a hypothesis. -/

structure Zlib where
  deflate : Bytes → Bytes
  inflate : Bytes → Option Bytes

def ZlibOk (z : Zlib) : Prop := ∀ b, z.inflate (z.deflate b) = some b

def idZlib : Zlib := ⟨id, some⟩

theorem idZlib_ok : ZlibOk idZlib := fun _ => rfl

/-- Error values of the embedded operations, one constructor per anyhow bail
site exercised by the embedding (io covers file-system and decompression
failures). -/
inductive GitError where
  | notFound (oid : String)
  | noNullByte
  | invalidUtf8
  | invalidHeader
  | io
  | refNotFound (name : String)
  | detachedHead
  | branchNotFound (name : String)
  | nonFastForward (refName : String)
  | invalidOid
  | expectedCommit (t : String)
  | invalidCommitFormat
  | expectedTree (t : String)
  | invalidPack
  | unknownType
  deriving DecidableEq, Repr

structure GitObject where
  object_type : String
  data : Bytes
  deriving DecidableEq, Repr

/-! Fixed locations.  The repository handle always refers to the same .git
directory, so paths are modelled relative to the repository root. -/

def gitDirPath : Path := [".git"]
def objectsDirPath : Path := [".git", "objects"]
def packDirPath : Path := [".git", "objects", "pack"]
def headName : String := "HEAD"
def refColonPre : String := "ref: "
def refHeadsColonPre : String := "ref: refs/heads/"
def refsSlashPre : String := "refs/"
def refsHeadsPre : String := "refs/heads/"
def refsTagsPre : String := "refs/tags/"
def refsRemotesPre : String := "refs/remotes/"
def treeSpPre : String := "tree "
def parentSpPre : String := "parent "
def packExt : String := ".pack"
def rustGitAuthor : String := "Rust-Git <user@example.com>"
def rustgitAuthor2 : String := "Rust-git <user@example.com>"
def emptyTreeOid : String := "4b825dc642cb6eb9a060e54bf8d69288fbee4904"

/-! Embedding of src/repository/objects.rs. -/

/-- Framed bytes of an object: the header TYPE SP LEN, one zero byte, then the
payload; hash_object feeds exactly these bytes to the hasher and write_object
stores their compression. -/
def frameBytes (object_type : String) (data : Bytes) : Bytes :=
  strBytes (object_type ++ " " ++ toString data.length) ++ [0] ++ data

/-- Embedding of objects::hash_object: SHA-1 of the framed bytes (the Rust
code feeds header, zero byte and payload to the hasher incrementally, which
digests their concatenation), rendered as lowercase hex. -/
def hash_object (data : Bytes) (object_type : String) : String :=
  hexEncode (sha1 (frameBytes object_type data))

/-- Loose-object path: two-character shard directory then the remaining 38
characters (object_id[0..2] and object_id[2..]). -/
def loosePath (objectsDir : Path) (object_id : String) : Path :=
  objectsDir ++ [object_id.take 2, object_id.drop 2]

/-- Embedding of objects::write_object: hash, then store the deflated framed
bytes at the shard path unless the file already exists (deduplication). -/
def write_object (z : Zlib) (fs : FS) (objectsDir : Path) (data : Bytes)
    (object_type : String) : FS × String :=
  let object_id := hash_object data object_type
  let p := loosePath objectsDir object_id
  if (fsRead fs p).isSome then (fs, object_id)
  else (fsWrite fs p (z.deflate (frameBytes object_type data)), object_id)

/-- Embedding of objects::write_blob. -/
def write_blob (z : Zlib) (fs : FS) (objectsDir : Path) (data : Bytes) : FS × String :=
  write_object z fs objectsDir data "blob"

/-- Split a byte list at its first zero byte, if any; mirrors locating the
header/payload separator by position of the first null. -/
def splitAtNull : Bytes → Option (Bytes × Bytes)
  | [] => none
  | b :: rest =>
    if b = 0 then some ([], rest)
    else (splitAtNull rest).map (fun pr => (b :: pr.1, pr.2))

/-- Parse an inflated loose object: header bytes up to the first null must be
UTF-8 (ASCII in this embedding) and split into exactly two space-separated
fields; the first field is the type and everything after the null is the
payload.  The second header field is not inspected further. -/
def parseLoose (dec : Bytes) : Except GitError GitObject :=
  match splitAtNull dec with
  | none => Except.error GitError.noNullByte
  | some (headerBytes, payload) =>
    if headerBytes.all (fun b => decide (b < 128)) then
      match splitOnElem 32 headerBytes with
      | [tb, _] => Except.ok ⟨String.mk (tb.map Char.ofNat), payload⟩
      | _ => Except.error GitError.invalidHeader
    else Except.error GitError.invalidUtf8

/-! Pack files (src/repository/pack.rs).  Only the reading path reachable from
read_object is embedded; the pack written by the embedded repack is empty, so
its parse fails at the 12-byte header exactly as PackFile::read does when
read_exact cannot fill the signature buffer. -/

structure PackObj where
  object_type : String
  data : Bytes
  offset : Nat
  base_object : Option String
  deriving DecidableEq, Repr

/-- Little-endian u32 from the first four bytes. -/
def fromLE4 (b : Bytes) : Nat :=
  b.getD 0 0 + 256 * b.getD 1 0 + 65536 * b.getD 2 0 + 16777216 * b.getD 3 0

/-- Parse the entries of a pack file driven by its index file, one 24-byte
index stride per object (20 oid bytes, 8 offset bytes read beyond the stride,
as in the source).  Decompression of an object at an offset is modelled by
inflating the byte suffix that starts there. -/
def packEntries (z : Zlib) (pack idx : Bytes) : Nat → Nat → Except GitError (List (String × PackObj))
  | _, 0 => Except.ok []
  | i, n + 1 => do
    if idx.length < i * 24 + 28 then throw GitError.io
    let oid := hexEncode ((idx.drop (i * 24)).take 20)
    let off := fromBE ((idx.drop (i * 24 + 20)).take 8)
    if pack.length ≤ off then throw GitError.io
    let tb := pack.getD off 0
    let (ot, base, skip) ←
      if tb = 1 then pure ("commit", none, 1)
      else if tb = 2 then pure ("tree", none, 1)
      else if tb = 3 then pure ("blob", none, 1)
      else if tb = 4 then pure ("tag", none, 1)
      else if tb = 7 then
        pure ("delta", some (hexEncode ((pack.drop (off + 1)).take 20)), 21)
      else if tb = 6 then
        pure ("delta", some ("offset:" ++ toString (fromBE ((pack.drop (off + 1)).take 8))), 9)
      else throw GitError.unknownType
    match z.inflate (pack.drop (off + skip)) with
    | none => throw GitError.io
    | some dec => do
      match splitAtNull dec with
      | none => throw GitError.noNullByte
      | some (hb, payload) =>
        if !(hb.all (fun b => decide (b < 128))) then throw GitError.invalidUtf8
        if (splitOnElem 32 hb).length ≠ 2 then throw GitError.invalidHeader
        let rest ← packEntries z pack idx (i + 1) n
        pure ((oid, ⟨ot, payload, off, base⟩) :: rest)

/-- Embedding of PackFile::read: verify the 12-byte header (signature PACK,
version, big-endian object count), then parse the objects via the index. -/
def packFileRead (z : Zlib) (pack idx : Bytes) : Except GitError (List (String × PackObj)) :=
  if pack.length < 12 then Except.error GitError.io
  else if pack.take 4 ≠ [80, 65, 67, 75] then Except.error GitError.invalidPack
  else packEntries z pack idx 0 (fromBE ((pack.drop 8).take 4))

/-- Companion index file name: with_extension("idx") replaces the pack
extension. -/
def idxName (packName : String) : String :=
  String.mk (packName.data.take (packName.data.length - 4)) ++ "idx"

/-- Assoc lookup used for pack object maps. -/
def alGet (l : List (String × String)) (k : String) : Option String :=
  (l.find? (fun kv => kv.1 == k)).map (fun kv => kv.2)

/-- Skip the delta-header bytes: consume bytes until one with the high bit
clear has been consumed (as the source's skip loop does). -/
def skipDeltaHeader : Bytes → Bytes
  | [] => []
  | b :: rest => if b &&& 128 = 0 then rest else skipDeltaHeader rest

/-- Apply the bespoke delta script of pack.rs: command 1 copies base bytes at a
little-endian offset/size pair, command 2 inserts literal bytes; slice panics
are modelled as io errors. -/
def applyDelta (base : Bytes) : Nat → Bytes → Bytes → Except GitError Bytes
  | _, [], acc => Except.ok acc
  | 0, _, _ => Except.error GitError.io
  | fuel + 1, cmd :: rest, acc =>
    if cmd = 1 then
      if 8 ≤ rest.length then
        let off := fromLE4 (rest.take 4)
        let sz := fromLE4 ((rest.drop 4).take 4)
        if off + sz ≤ base.length then
          applyDelta base fuel (rest.drop 8) (acc ++ (base.drop off).take sz)
        else Except.error GitError.io
      else Except.error GitError.io
    else if cmd = 2 then
      if 4 ≤ rest.length then
        let sz := fromLE4 (rest.take 4)
        if 4 + sz ≤ rest.length then
          applyDelta base fuel (rest.drop (4 + sz)) (acc ++ ((rest.drop 4).take sz))
        else Except.error GitError.io
      else Except.error GitError.io
    else Except.error GitError.unknownType

/-- Names of the pack files present under objects/pack. -/
def packFileNames (fs : FS) : List String :=
  (fsChildren fs packDirPath).filter (fun n => rustEndsWith n packExt)

/-- Embedding of objects::read_object.  The loose store is probed first; on a
miss every pack file is read (a pack that fails to parse aborts the whole
lookup, as the question-mark operator does), a ref-delta or offset-delta entry
is resolved through a recursive read of its base (depth bounded by fuel) and
the delta script applied. -/
def read_object (z : Zlib) (fs : FS) : Nat → String → Except GitError GitObject
  | 0, _ => Except.error GitError.io
  | fuel + 1, object_id =>
    let p := loosePath objectsDirPath object_id
    match fsRead fs p with
    | some comp =>
      match z.inflate comp with
      | none => Except.error GitError.io
      | some dec => parseLoose dec
    | none =>
      if fsDirExists fs packDirPath then
        let step := fun (acc : Except GitError (Option GitObject)) (name : String) => do
          let found ← acc
          match found with
          | some _ => pure found
          | none =>
            match fsRead fs (packDirPath ++ [name]) with
            | none => throw GitError.io
            | some packBytes =>
              let idxBytes := (fsRead fs (packDirPath ++ [idxName name])).getD []
              let objs ← packFileRead z packBytes idxBytes
              match objs.find? (fun kv => kv.1 == object_id) with
              | none => pure none
              | some (_, pobj) =>
                match pobj.base_object with
                | none => pure (some ⟨pobj.object_type, pobj.data⟩)
                | some baseId => do
                  let baseRealId ←
                    if rustStartsWith baseId "offset:" then
                      match objs.find? (fun kv =>
                          kv.2.offset == (String.mk (baseId.data.drop 7)).toNat!) with
                      | some kv => pure kv.1
                      | none => throw (GitError.notFound baseId)
                    else pure baseId
                  let baseObj ← read_object z fs fuel baseRealId
                  let recon ← applyDelta baseObj.data (pobj.data.length + 1)
                    (skipDeltaHeader pobj.data) []
                  pure (some ⟨pobj.object_type, recon⟩)
        match packFileNames fs |>.foldl step (Except.ok none) with
        | Except.error e => Except.error e
        | Except.ok (some obj) => Except.ok obj
        | Except.ok none => Except.error (GitError.notFound object_id)
      else Except.error (GitError.notFound object_id)

/-! Embedding of src/repository/index.rs.  The index is an in-memory map from
repository-relative paths to entries; its bincode file serialization
round-trips, so the on-disk index is carried as the value itself. -/

structure IndexEntry where
  mtime : Nat
  object_id : String
  mode : Nat
  deriving DecidableEq, Repr

structure Index where
  entries : List (String × IndexEntry)
  deriving DecidableEq, Repr

/-- Embedding of Index::add_file (the mtime read from file metadata is a
parameter); insert or overwrite the entry at the repo-relative path with mode
0o100644. -/
def indexAddFile (idx : Index) (path : String) (object_id : String) (mtime : Nat) : Index :=
  ⟨(path, ⟨mtime, object_id, 33188⟩) :: idx.entries.filter (fun kv => decide (kv.1 ≠ path))⟩

/-- Octal rendering of a mode, as format {:o} produces. -/
def octalStr (n : Nat) : String := String.mk (Nat.toDigits 8 n)

/-- Byte image of one tree entry: MODE SP PATH NUL followed by the 20 raw oid
bytes. -/
def treeEntryBytes (path : String) (mode : Nat) (raw : Bytes) : Bytes :=
  strBytes (octalStr mode) ++ [32] ++ strBytes path ++ [0] ++ raw

/-- Build the unsorted entry byte lists from the index, failing when an
object_id is not valid hex of 20 bytes. -/
def buildTreeEntries : List (String × IndexEntry) → Except GitError (List Bytes)
  | [] => Except.ok []
  | (path, e) :: rest => do
    match hexDecode? e.object_id with
    | none => throw GitError.invalidOid
    | some raw =>
      if raw.length ≠ 20 then throw GitError.invalidOid
      let tail ← buildTreeEntries rest
      pure (treeEntryBytes path e.mode raw :: tail)

/-- The comparator key of the sort in write_tree: the bytes between the first
space and the following null, decoded lossily. -/
def entryName (e : Bytes) : String :=
  match e.findIdx? (fun b => b == 32) with
  | none => ""
  | some sp =>
    match (e.drop (sp + 1)).findIdx? (fun b => b == 0) with
    | none => ""
    | some np => lossyStr ((e.drop (sp + 1)).take np)

/-- Comparison used by the sort in write_tree (String cmp of the extracted
names; Rust byte order equals code-point order on UTF-8). -/
def treeEntryLe (a b : Bytes) : Prop := rustStrLe (entryName a) (entryName b) = true

instance : DecidableRel treeEntryLe :=
  fun _ _ => inferInstanceAs (Decidable (_ = true))

/-- Embedding of objects::write_tree: one flat tree object whose entries are
the index's paths verbatim (the source explicitly skips subtree construction),
sorted by the extracted entry name (sort_by is a stable sort; the stable
insertion sort used here produces the same list), stored via write_object. -/
def write_tree (z : Zlib) (fs : FS) (idx : Index) : Except GitError (FS × String) := do
  let entryList ← buildTreeEntries idx.entries
  let sorted := entryList.insertionSort treeEntryLe
  pure (write_object z fs objectsDirPath sorted.flatten "tree")

/-- Text of a commit object as objects::write_commit lays it out; the
timestamp string that Utc::now produces is a parameter. -/
def commitContentStr (tree_id : String) (parent_ids : List String)
    (message author timestamp : String) : String :=
  "tree " ++ tree_id ++ "\n"
    ++ String.join (parent_ids.map (fun p => "parent " ++ p ++ "\n"))
    ++ "author " ++ author ++ " " ++ timestamp ++ "\n"
    ++ "committer " ++ author ++ " " ++ timestamp ++ "\n"
    ++ "\n" ++ message ++ "\n"

/-- Embedding of objects::write_commit: compose the payload and store it via
write_object into the directory the caller passes as objects_dir. -/
def write_commit (z : Zlib) (fs : FS) (objectsDir : Path) (tree_id : String)
    (parent_ids : List String) (message author timestamp : String) : FS × String :=
  write_object z fs objectsDir (strBytes (commitContentStr tree_id parent_ids message author timestamp)) "commit"

/-! Embedding of src/repository/refs.rs. -/

/-- Embedding of refs::resolve_ref_path. -/
def resolve_ref_path (fs : FS) (ref_name : String) : Path :=
  if rustStartsWith ref_name refsSlashPre then gitDirPath ++ pathOf ref_name
  else if ref_name = headName then gitDirPath ++ [headName]
  else
    let candidates := [refsHeadsPre ++ ref_name, refsTagsPre ++ ref_name,
      refsRemotesPre ++ ref_name]
    match candidates.find? (fun c => (fsRead fs (gitDirPath ++ pathOf c)).isSome) with
    | some c => gitDirPath ++ pathOf c
    | none => gitDirPath ++ pathOf (refsHeadsPre ++ ref_name)

/-- Embedding of refs::read_ref: read the resolved file as a string and trim
it; a missing file is the ref-not-found bail. -/
def read_ref (fs : FS) (ref_name : String) : Except GitError String :=
  match fsRead fs (resolve_ref_path fs ref_name) with
  | some b =>
    match bytesStr? b with
    | some s => Except.ok (rustTrim s)
    | none => Except.error GitError.io
  | none => Except.error (GitError.refNotFound ref_name)

/-- Embedding of refs::update_ref: write OID and a newline at the resolved
path (parent directories appear implicitly in the path model). -/
def update_ref (fs : FS) (ref_name : String) (commit_id : String) : FS :=
  fsWrite fs (resolve_ref_path fs ref_name) (strBytes (commit_id ++ "\n"))

/-- Embedding of refs::get_head_commit: a symbolic HEAD is dereferenced once
through read_ref, otherwise the trimmed content is the commit id. -/
def get_head_commit (fs : FS) : Except GitError String :=
  match fsRead fs (gitDirPath ++ [headName]) with
  | none => Except.error GitError.io
  | some b =>
    match bytesStr? b with
    | none => Except.error GitError.io
    | some head =>
      if rustStartsWith head refColonPre then
        read_ref fs (rustTrim (rustDropPre head refColonPre))
      else Except.ok (rustTrim head)

/-! Embedding of src/repository/mod.rs. -/

/-- Embedding of Repository::current_branch: HEAD must begin with
ref: refs/heads/, else the detached-head bail. -/
def current_branch (fs : FS) : Except GitError String :=
  match fsRead fs (gitDirPath ++ [headName]) with
  | none => Except.error GitError.io
  | some b =>
    match bytesStr? b with
    | none => Except.error GitError.io
    | some head =>
      if rustStartsWith head refHeadsColonPre then
        Except.ok (rustTrimEnd (rustDropPre head refHeadsColonPre))
      else Except.error GitError.detachedHead

def headRefMasterContent : String := "ref: refs/heads/master\n"
def initConfigContent : String :=
  "[core]\n\trepositoryformatversion = 0\n\tfilemode = true\n\tbare = false\n"
def initDescriptionContent : String :=
  "Unnamed repository; edit this file 'description' to name the repository.\n"

/-- Embedding of Repository::init: write HEAD, config and description, store
the empty tree object, store a parentless initial commit on the empty tree,
and point refs/heads/master at it. -/
def initFS (z : Zlib) (ts : String) : FS × String :=
  let fs1 := fsWrite [] (gitDirPath ++ [headName]) (strBytes headRefMasterContent)
  let fs2 := fsWrite fs1 (gitDirPath ++ ["config"]) (strBytes initConfigContent)
  let fs3 := fsWrite fs2 (gitDirPath ++ ["description"]) (strBytes initDescriptionContent)
  let fs4 := (write_object z fs3 objectsDirPath [] "tree").1
  let r := write_commit z fs4 objectsDirPath emptyTreeOid [] "Initial commit" rustGitAuthor ts
  let fs6 := fsWrite r.1 (gitDirPath ++ pathOf "refs/heads/master") (strBytes (r.2 ++ "\n"))
  (fs6, r.2)

/-- Embedding of Repository::repack.  The source only simulates packing: it
collects the loose object files of the two-character shard directories,
deletes each of them, writes an empty pack and an empty index file, and then
removes every directory under objects except pack. -/
def repackFS (fs : FS) (ts : String) : FS :=
  let shards := (fsChildren fs objectsDirPath).filter
    (fun d => fsDirExists fs (objectsDirPath ++ [d]) && (d.length == 2))
  let looseFiles := shards.foldr
    (fun d acc =>
      ((fsChildren fs (objectsDirPath ++ [d])).map (fun f => objectsDirPath ++ [d, f])) ++ acc)
    []
  let fs1 := looseFiles.foldl fsRemove fs
  let fs2 := fsWrite fs1 (packDirPath ++ ["pack-" ++ ts ++ packExt]) []
  let fs3 := fsWrite fs2 (packDirPath ++ ["pack-" ++ ts ++ ".idx"]) []
  let dirs := (fsChildren fs3 objectsDirPath).filter
    (fun d => (d != "pack") && fsDirExists fs3 (objectsDirPath ++ [d]))
  dirs.foldl (fun acc d => fsRemoveDir acc (objectsDirPath ++ [d])) fs3

/-! Repository state carried by the commands: the file system plus the loaded
index and the (round-tripping) on-disk index value. -/

structure RepoSt where
  fs : FS
  index : Index
  indexFile : Option Index
  deriving DecidableEq, Repr

/-- Embedding of commands/commit.rs execute.  Note that the objects_dir
argument handed to write_commit is the git directory itself, exactly as the
source passes repo.git_dir. -/
def commitExecute (z : Zlib) (st : RepoSt) (message ts : String) :
    Except GitError (RepoSt × Option String) := do
  let (fs1, current_tree_id) ← write_tree z st.fs st.index
  let branch ← current_branch fs1
  let parent_commits :=
    match get_head_commit fs1 with
    | Except.ok c => [c]
    | Except.error _ => []
  let nothingToCommit ←
    match parent_commits with
    | [] => pure false
    | parent :: _ => do
      let obj ← read_object z fs1 2 parent
      if obj.object_type ≠ "commit" then throw (GitError.expectedCommit obj.object_type)
      let ls := rustLines (lossyStr obj.data)
      match ls.head? with
      | none => throw GitError.invalidCommitFormat
      | some l0 =>
        if !(rustStartsWith l0 treeSpPre) then throw GitError.invalidCommitFormat
        pure (rustTrim (rustDropPre l0 treeSpPre) == current_tree_id)
  if nothingToCommit then
    pure ({ st with fs := fs1 }, none)
  else
    let (fs2, commit_id) := write_commit z fs1 gitDirPath current_tree_id
      parent_commits message rustgitAuthor2 ts
    let fs3 := update_ref fs2 (refsHeadsPre ++ branch) commit_id
    pure ({ fs := fs3, index := st.index, indexFile := some st.index }, some commit_id)

/-! Embedding of src/commands/merge.rs. -/

/-- Cursor loop of get_tree_content: at each position, find the space ending
the mode, the null ending the name, decode the name (invalid UTF-8 aborts),
take the next 20 bytes as the entry oid, and continue; malformed remainders
end the loop with the entries collected so far.  The accumulator models the
HashMap by later inserts shadowing earlier ones. -/
def parseTreeLoop (data : Bytes) : Nat → Nat → List (String × String) →
    Except GitError (List (String × String))
  | 0, _, acc => Except.ok acc
  | fuel + 1, cursor, acc =>
    if cursor < data.length then
      match (data.drop cursor).findIdx? (fun b => b == 32) with
      | none => Except.ok acc
      | some spaceIdx =>
        let nameStart := cursor + spaceIdx + 1
        match (data.drop nameStart).findIdx? (fun b => b == 0) with
        | none => Except.ok acc
        | some nullRel =>
          let nameBytes := (data.drop nameStart).take nullRel
          if nameBytes.all (fun b => decide (b < 128)) then
            let name := String.mk (nameBytes.map Char.ofNat)
            let shaStart := nameStart + nullRel + 1
            if shaStart + 20 ≤ data.length then
              let sha := hexEncode ((data.drop shaStart).take 20)
              parseTreeLoop data fuel (shaStart + 20) ((name, sha) :: acc)
            else Except.ok acc
          else Except.error GitError.invalidUtf8
    else Except.ok acc

/-- Embedding of get_tree_content: read the object, require a tree, parse the
entry list. -/
def get_tree_content (z : Zlib) (fs : FS) (rfuel : Nat) (tree_id : String) :
    Except GitError (List (String × String)) := do
  let obj ← read_object z fs rfuel tree_id
  if obj.object_type ≠ "tree" then throw (GitError.expectedTree obj.object_type)
  parseTreeLoop obj.data (obj.data.length + 1) 0 []

/-- Embedding of get_files_from_commit: read the commit, take the tree id from
its first line, and flatten that tree. -/
def get_files_from_commit (z : Zlib) (fs : FS) (rfuel : Nat) (commit_id : String) :
    Except GitError (List (String × String)) := do
  let obj ← read_object z fs rfuel commit_id
  if obj.object_type ≠ "commit" then throw (GitError.expectedCommit obj.object_type)
  let ls := rustLines (lossyStr obj.data)
  match ls.head? with
  | none => throw GitError.invalidCommitFormat
  | some l0 =>
    if !(rustStartsWith l0 treeSpPre) then throw GitError.invalidCommitFormat
    get_tree_content z fs rfuel (rustTrim (rustDropPre l0 treeSpPre))

/-- Parent ids of a commit as the merge walks extract them: the lines starting
with parent-space, stripped and trimmed, in line order; read failures and
non-commits contribute no parents. -/
def commitParents (z : Zlib) (fs : FS) (rfuel : Nat) (commit_id : String) : List String :=
  match read_object z fs rfuel commit_id with
  | Except.ok obj =>
    if obj.object_type = "commit" then
      ((rustLines (lossyStr obj.data)).filter (fun l => rustStartsWith l parentSpPre)).map
        (fun l => rustTrim (rustDropPre l parentSpPre))
    else []
  | Except.error _ => []

/-- First phase of find_merge_base: drain a stack (Vec push/pop works at the
end, so pushing the parents in line order makes the last parent pop first),
inserting every reached commit into the ancestor set. -/
def ancestorsWalk (z : Zlib) (fs : FS) (rfuel : Nat) : Nat → List String → List String → List String
  | 0, _, seen => seen
  | _ + 1, [], seen => seen
  | fuel + 1, c :: stack, seen =>
    if seen.contains c then ancestorsWalk z fs rfuel fuel stack seen
    else ancestorsWalk z fs rfuel fuel ((commitParents z fs rfuel c).reverse ++ stack) (c :: seen)

/-- Second phase of find_merge_base: drain a stack from the other commit with
a visited set, returning the first popped commit that lies in the ancestor
set. -/
def mergeBaseWalk (z : Zlib) (fs : FS) (rfuel : Nat) (ancestors1 : List String) :
    Nat → List String → List String → Option String
  | 0, _, _ => none
  | _ + 1, [], _ => none
  | fuel + 1, c :: stack, visited =>
    if visited.contains c then mergeBaseWalk z fs rfuel ancestors1 fuel stack visited
    else if ancestors1.contains c then some c
    else mergeBaseWalk z fs rfuel ancestors1 fuel
      ((commitParents z fs rfuel c).reverse ++ stack) (c :: visited)

/-- Embedding of find_merge_base: collect all ancestors of the first commit,
then search from the second (both walks are stack-driven). -/
def find_merge_base (z : Zlib) (fs : FS) (rfuel wfuel : Nat) (commit1 commit2 : String) :
    Option String :=
  mergeBaseWalk z fs rfuel (ancestorsWalk z fs rfuel wfuel [commit1] []) wfuel [commit2] []

/-- Scan forward from j while the two line lists disagree (inner while of the
conflict-range loop). -/
def runEnd (cur mrg : List String) (maxLen : Nat) : Nat → Nat → Nat
  | 0, j => j
  | fuel + 1, j =>
    if j < maxLen ∧ cur.get? j ≠ mrg.get? j then runEnd cur mrg maxLen fuel (j + 1) else j

/-- The 1-based disagreement runs of two line lists, as the edit/edit branch
reports them. -/
def diffRuns (cur mrg : List String) (maxLen : Nat) : Nat → Nat → List (Nat × Nat)
  | 0, _ => []
  | fuel + 1, i =>
    if i < maxLen then
      if cur.get? i ≠ mrg.get? i then
        let k := runEnd cur mrg maxLen maxLen (i + 1)
        (i + 1, k) :: diffRuns cur mrg maxLen fuel k
      else diffRuns cur mrg maxLen fuel (i + 1)
    else []

/-- Conflict message for one run: a single line number when the run has one
line, otherwise a closed interval. -/
def conflictRangeMsg (f : String) (pr : Nat × Nat) : String :=
  if pr.1 = pr.2 then "Merge conflict in " ++ f ++ ": " ++ toString pr.1
  else "Merge conflict in " ++ f ++ ": [" ++ toString pr.1 ++ ", " ++ toString pr.2 ++ "]"

/-- Reconciliation state: whether a conflict was found, the merged path map
(modelled as a shadowing assoc list), and the conflict messages printed. -/
structure MergeAcc where
  conflictFound : Bool
  merged : List (String × String)
  msgs : List String
  deriving DecidableEq, Repr

/-- One filename of the reconciliation loop, mirroring the nine match arms of
the source including its default resolutions. -/
def mergeStep (z : Zlib) (fs : FS) (rfuel : Nat)
    (baseFiles curFiles mrgFiles : List (String × String))
    (acc : MergeAcc) (f : String) : Except GitError MergeAcc := do
  match alGet baseFiles f, alGet curFiles f, alGet mrgFiles f with
  | some b, some c, some m =>
    if b = c ∧ b = m then pure { acc with merged := (f, c) :: acc.merged }
    else if b = c ∧ b ≠ m then pure { acc with merged := (f, m) :: acc.merged }
    else if b ≠ c ∧ b = m then pure { acc with merged := (f, c) :: acc.merged }
    else if c = m then pure { acc with merged := (f, c) :: acc.merged }
    else do
      let curObj ← read_object z fs rfuel c
      let mrgObj ← read_object z fs rfuel m
      let curLines := rustLines (lossyStr curObj.data)
      let mrgLines := rustLines (lossyStr mrgObj.data)
      let maxLen := max curLines.length mrgLines.length
      let runs := diffRuns curLines mrgLines maxLen (maxLen + 1) 0
      pure { conflictFound := true,
             merged := (f, c) :: acc.merged,
             msgs := acc.msgs ++ runs.map (conflictRangeMsg f) }
  | some b, some c, none =>
    if b = c then pure acc
    else pure { conflictFound := true,
                merged := (f, c) :: acc.merged,
                msgs := acc.msgs ++
                  ["Merge conflict in " ++ f ++ ": modified in current branch but deleted in merge branch"] }
  | some b, none, some m =>
    if b = m then pure acc
    else pure { conflictFound := true,
                merged := (f, m) :: acc.merged,
                msgs := acc.msgs ++
                  ["Merge conflict in " ++ f ++ ": modified in merge branch but deleted in current branch"] }
  | none, some c, some m =>
    if c = m then pure { acc with merged := (f, c) :: acc.merged }
    else pure { conflictFound := true,
                merged := (f, c) :: acc.merged,
                msgs := acc.msgs ++
                  ["Merge conflict in " ++ f ++ ": different versions of new file"] }
  | none, some c, none => pure { acc with merged := (f, c) :: acc.merged }
  | none, none, some m => pure { acc with merged := (f, m) :: acc.merged }
  | some _, none, none => pure acc
  | none, none, none => pure acc

/-- The reconciliation loop over the union of the three key sets (the HashSet
iteration order is unspecified; first-occurrence order of current, merge, base
keys is the deterministic model). -/
def mergeReconcile (z : Zlib) (fs : FS) (rfuel : Nat)
    (baseFiles curFiles mrgFiles : List (String × String)) : Except GitError MergeAcc :=
  let allNames := (curFiles.map (fun kv => kv.1) ++ mrgFiles.map (fun kv => kv.1)
    ++ baseFiles.map (fun kv => kv.1)).dedup
  allNames.foldlM (mergeStep z fs rfuel baseFiles curFiles mrgFiles) ⟨false, [], []⟩

inductive MergeOutcome where
  | alreadyOn
  | upToDate
  | conflicts (msgs : List String)
  | merged (commit_id : String)
  deriving DecidableEq, Repr

/-- Embedding of commands/merge.rs execute.  The mtime recorded by add_file
and the commit timestamp are parameters.  On conflicts the command prints and
returns Ok before touching the working tree, the index, the object store or
any ref. -/
def mergeExecute (z : Zlib) (rfuel wfuel : Nat) (mtime : Nat) (ts : String)
    (st : RepoSt) (branch_to_merge : String) : Except GitError (RepoSt × MergeOutcome) := do
  let cur ← current_branch st.fs
  if cur = branch_to_merge then pure (st, MergeOutcome.alreadyOn)
  else do
    let curId ← read_ref st.fs (refsHeadsPre ++ cur)
    let mrgId ←
      match read_ref st.fs (refsHeadsPre ++ branch_to_merge) with
      | Except.ok i => pure i
      | Except.error _ => throw (GitError.branchNotFound branch_to_merge)
    if curId = mrgId then pure (st, MergeOutcome.upToDate)
    else do
      let base? := find_merge_base z st.fs rfuel wfuel curId mrgId
      let curFiles ← get_files_from_commit z st.fs rfuel curId
      let mrgFiles ← get_files_from_commit z st.fs rfuel mrgId
      let baseFiles ←
        match base? with
        | some b => get_files_from_commit z st.fs rfuel b
        | none => pure []
      let acc ← mergeReconcile z st.fs rfuel baseFiles curFiles mrgFiles
      if acc.conflictFound then pure (st, MergeOutcome.conflicts acc.msgs)
      else do
        let fsA := curFiles.foldl
          (fun fsAcc kv =>
            if (alGet acc.merged kv.1).isSome then fsAcc
            else if (fsRead fsAcc (pathOf kv.1)).isSome then fsRemove fsAcc (pathOf kv.1)
            else fsAcc)
          st.fs
        let (fsB, idxB) ← acc.merged.foldlM
          (fun (pr : FS × Index) kv => do
            let obj ← read_object z pr.1 rfuel kv.2
            if obj.object_type = "blob" then
              pure (fsWrite pr.1 (pathOf kv.1) obj.data, indexAddFile pr.2 kv.1 kv.2 mtime)
            else pure pr)
          (fsA, st.index)
        let (fsC, tree_id) ← write_tree z fsB idxB
        let (fsD, merge_commit_id) := write_commit z fsC gitDirPath tree_id
          [curId, mrgId]
          ("Merge branch '" ++ branch_to_merge ++ "' into " ++ cur)
          rustgitAuthor2 ts
        let fsE := update_ref fsD (refsHeadsPre ++ cur) merge_commit_id
        pure ({ fs := fsE, index := idxB, indexFile := some idxB }, MergeOutcome.merged merge_commit_id)

/-! Embedding of src/repository/bundle.rs, together with the ancestry test it
relies on. -/

/-- Modelled from the spec: bundle.rs calls objects::is_ancestor, whose
definition is not among the source files (only this caller is).  Section 4.4
of the specification describes it as a breadth-first walk of the descendant's
parent graph with a visited set, returning true when the candidate ancestor is
reached and tolerating missing objects by treating such branches as
non-matching. -/
def isAncestorWalk (z : Zlib) (fs : FS) (rfuel : Nat) (anc : String) :
    Nat → List String → List String → Bool
  | 0, _, _ => false
  | _ + 1, [], _ => false
  | fuel + 1, c :: queue, visited =>
    if c = anc then true
    else if visited.contains c then isAncestorWalk z fs rfuel anc fuel queue visited
    else isAncestorWalk z fs rfuel anc fuel
      (queue ++ commitParents z fs rfuel c) (c :: visited)

/-- Modelled from the spec: objects::is_ancestor (see isAncestorWalk). -/
def is_ancestor (z : Zlib) (fs : FS) (rfuel wfuel : Nat)
    (maybe_ancestor descendant : String) : Bool :=
  isAncestorWalk z fs rfuel maybe_ancestor wfuel [descendant] []

/-- The contents of a bundle archive: object files relative to the objects
directory, the packed-refs file, and the HEAD file. -/
structure Bundle where
  objects : List (Path × Bytes)
  packedRefs : Option Bytes
  headFile : Option Bytes

/-- One packed-refs line in push mode: two space-separated fields naming a
commit and a ref; a branch ref that is absent is created, an equal one is left
alone, a strictly descending one is advanced, anything else aborts with the
non-fast-forward bail; malformed or non-branch lines are skipped. -/
def processRefLine (z : Zlib) (rfuel wfuel : Nat) (remote_name : Option String)
    (fs : FS) (line : String) : Option GitError × FS :=
  match rustSplitSpace line with
  | [commit_id, orig] =>
    (match remote_name with
     | some r =>
       if rustStartsWith orig refsHeadsPre then
         (none, update_ref fs (refsRemotesPre ++ r ++ "/" ++ rustDropPre orig refsHeadsPre) commit_id)
       else (none, fs)
     | none =>
       if rustStartsWith orig refsHeadsPre then
         match read_ref fs orig with
         | Except.ok server =>
           if server = commit_id then (none, fs)
           else if is_ancestor z fs rfuel wfuel server commit_id then
             (none, update_ref fs orig commit_id)
           else (some (GitError.nonFastForward orig), fs)
         | Except.error _ => (none, update_ref fs orig commit_id)
       else (none, fs))
  | _ => (none, fs)

/-- The packed-refs loop: process lines in order, aborting on the first error
while keeping the updates already performed (the bail propagates out of
unbundle with the file system as mutated so far). -/
def processRefLines (z : Zlib) (rfuel wfuel : Nat) (remote_name : Option String) :
    FS → List String → Option GitError × FS
  | fs, [] => (none, fs)
  | fs, l :: rest =>
    match processRefLine z rfuel wfuel remote_name fs l with
    | (some e, fs1) => (some e, fs1)
    | (none, fs1) => processRefLines z rfuel wfuel remote_name fs1 rest

/-- Embedding of bundle::unbundle: copy every object file of the bundle into
the receiving store (fs::copy overwrites), apply the packed-refs lines, and in
fetch mode mirror the sender's symbolic HEAD under the remote. -/
def unbundle (z : Zlib) (rfuel wfuel : Nat) (fs : FS) (bundle : Bundle)
    (remote_name : Option String) : Option GitError × FS :=
  let fs1 := bundle.objects.foldl (fun acc kv => fsWrite acc (objectsDirPath ++ kv.1) kv.2) fs
  let afterRefs :=
    match bundle.packedRefs with
    | none => (none, fs1)
    | some prBytes =>
      match bytesStr? prBytes with
      | none => (some GitError.io, fs1)
      | some content => processRefLines z rfuel wfuel remote_name fs1 (rustLines content)
  match afterRefs with
  | (some e, fs2) => (some e, fs2)
  | (none, fs2) =>
    match remote_name with
    | none => (none, fs2)
    | some r =>
      match bundle.headFile with
      | none => (none, fs2)
      | some hb =>
        match bytesStr? hb with
        | none => (some GitError.io, fs2)
        | some headContent =>
          if rustStartsWith (rustTrim headContent) refColonPre then
            let orig := rustDropPre (rustTrim headContent) refColonPre
            if rustStartsWith orig refsHeadsPre then
              (none, fsWrite fs2 (gitDirPath ++ ["refs", "remotes", r, headName])
                (strBytes (refColonPre ++ refsRemotesPre ++ r ++ "/" ++ rustDropPre orig refsHeadsPre)))
            else (none, fs2)
          else (none, fs2)

/-! Definitions following the specification's words, used to compare the
source behaviour against the spec. -/

/-- Framed byte sequence of section 3: TYPE, one ASCII space, the decimal byte
length of the payload, one zero byte, then the payload. -/
def specFrame (t : String) (p : Bytes) : Bytes :=
  strBytes t ++ [32] ++ strBytes (toString p.length) ++ [0] ++ p

/-- Breadth-first search phase of the specification's merge_base: a first-in
first-out queue from the second commit, returning the first encountered OID
that lies in the ancestor set. -/
def specBfsWalk (z : Zlib) (fs : FS) (rfuel : Nat) (ancestors1 : List String) :
    Nat → List String → List String → Option String
  | 0, _, _ => none
  | _ + 1, [], _ => none
  | fuel + 1, c :: queue, visited =>
    if visited.contains c then specBfsWalk z fs rfuel ancestors1 fuel queue visited
    else if ancestors1.contains c then some c
    else specBfsWalk z fs rfuel ancestors1 fuel
      (queue ++ commitParents z fs rfuel c) (c :: visited)

/-- merge_base as the specification words it: walk the ancestors of the first
commit into a set, then breadth-first search from the second. -/
def mergeBaseSpecBfs (z : Zlib) (fs : FS) (rfuel wfuel : Nat) (a b : String) : Option String :=
  specBfsWalk z fs rfuel (ancestorsWalk z fs rfuel wfuel [a] []) wfuel [b] []

/-- One step of the commit parent graph as the walks read it. -/
def parentEdge (z : Zlib) (fs : FS) (rfuel : Nat) (x y : String) : Prop :=
  y ∈ commitParents z fs rfuel x

/-- Ancestry as reflexive-transitive reachability along parent edges. -/
def Reaches (z : Zlib) (fs : FS) (rfuel : Nat) : String → String → Prop :=
  Relation.ReflTransGen (parentEdge z fs rfuel)

/-! Concrete fixtures used by witnesses and counterexamples. -/

/-- A stored loose object: its shard path and the deflated framed bytes under
the identity compressor. -/
def looseEntry (oid t : String) (data : Bytes) : Path × Bytes :=
  (loosePath objectsDirPath oid, frameBytes t data)

/-- Commit graph for the merge-base claims: m2m2 is a root, m1m1 and xxxx are
children of m2m2, bbbb has parents m1m1 then xxxx. -/
def cGraphFS : FS :=
  [looseEntry "m2m2" "commit" (strBytes "tree t0t0\n\nroot\n"),
   looseEntry "m1m1" "commit" (strBytes "tree t0t0\nparent m2m2\n\nm1\n"),
   looseEntry "xxxx" "commit" (strBytes "tree t0t0\nparent m2m2\n\nx\n"),
   looseEntry "bbbb" "commit" (strBytes "tree t0t0\nparent m1m1\nparent xxxx\n\nb\n")]

/-! Lemmas about the byte and string helpers. -/

theorem strBytes_append (a b : String) : strBytes (a ++ b) = strBytes a ++ strBytes b := by
  simp [strBytes, String.data_append]

theorem strBytes_space : strBytes " " = [32] := rfl

theorem mk_map_ofNat_strBytes (s : String) : String.mk ((strBytes s).map Char.ofNat) = s := by
  cases s with
  | mk l =>
    simp only [strBytes, List.map_map]
    congr 1
    exact List.map_congr_left (fun c _ => Char.ofNat_toNat c) |>.trans (List.map_id l)

/-- A byte suitable for an object header field: ASCII, not the separator
space, not the null terminator. -/
abbrev HeaderByte (x : Nat) : Prop := x < 128 ∧ x ≠ 0 ∧ x ≠ 32

theorem digitChar_headerByte (n : Nat) (h : n < 16) : HeaderByte (Nat.digitChar n).toNat := by
  interval_cases n <;> decide

theorem toDigitsCore_headerByte (f : Nat) :
    ∀ (n : Nat) (acc : List Char), (∀ c ∈ acc, HeaderByte c.toNat) →
      ∀ c ∈ Nat.toDigitsCore 10 f n acc, HeaderByte c.toNat := by
  induction f with
  | zero => intro n acc hacc c hc; exact hacc c hc
  | succ f ih =>
    intro n acc hacc c hc
    have hd : ∀ x ∈ Nat.digitChar (n % 10) :: acc, HeaderByte x.toNat := by
      intro x hx
      rcases List.mem_cons.mp hx with h1 | h1
      · subst h1
        exact digitChar_headerByte _ (Nat.lt_of_lt_of_le (Nat.mod_lt _ (by norm_num)) (by norm_num))
      · exact hacc x h1
    simp only [Nat.toDigitsCore] at hc
    split at hc
    · exact hd c hc
    · exact ih (n / 10) (Nat.digitChar (n % 10) :: acc) hd c hc

theorem natToString_headerByte (n : Nat) : ∀ x ∈ strBytes (toString n), HeaderByte x := by
  intro x hx
  simp only [strBytes, List.mem_map] at hx
  obtain ⟨c, hc, rfl⟩ := hx
  have : c ∈ Nat.toDigits 10 n := hc
  exact toDigitsCore_headerByte _ _ _ (by intro y hy; cases hy) c this

theorem splitAtNull_append (A B : Bytes) (h : ∀ x ∈ A, x ≠ 0) :
    splitAtNull (A ++ 0 :: B) = some (A, B) := by
  induction A with
  | nil => simp [splitAtNull]
  | cons a as ih =>
    have ha : a ≠ 0 := h a (List.mem_cons_self a as)
    simp [splitAtNull, ha, ih (fun x hx => h x (List.mem_cons_of_mem a hx))]

theorem splitOnElem_ne_nil {α : Type} [DecidableEq α] (sep : α) (l : List α) :
    splitOnElem sep l ≠ [] := by
  cases l with
  | nil => simp [splitOnElem]
  | cons a rest =>
    simp only [splitOnElem]
    split
    · simp
    · rcases h : splitOnElem sep rest with _ | ⟨hd, tl⟩ <;> simp

theorem splitOnElem_no_sep {α : Type} [DecidableEq α] (sep : α) (l : List α)
    (h : ∀ x ∈ l, x ≠ sep) : splitOnElem sep l = [l] := by
  induction l with
  | nil => rfl
  | cons a rest ih =>
    have ha : a ≠ sep := h a (List.mem_cons_self a rest)
    simp only [splitOnElem, if_neg ha, ih (fun x hx => h x (List.mem_cons_of_mem a hx))]

theorem splitOnElem_append {α : Type} [DecidableEq α] (sep : α) (A B : List α)
    (h : ∀ x ∈ A, x ≠ sep) : splitOnElem sep (A ++ sep :: B) = A :: splitOnElem sep B := by
  induction A with
  | nil => simp [splitOnElem]
  | cons a as ih =>
    have ha : a ≠ sep := h a (List.mem_cons_self a as)
    have hrec := ih (fun x hx => h x (List.mem_cons_of_mem a hx))
    simp only [List.cons_append, splitOnElem, if_neg ha]
    rw [List.append_eq, hrec]

/-- Parsing an inflated loose object whose header is TYPE SP FIELD NUL
recovers the type and the payload for any second field of header bytes; the
field is never compared against the payload length. -/
theorem parseLoose_header (t lenField : String) (payload : Bytes)
    (ht : ∀ x ∈ strBytes t, HeaderByte x)
    (hlf : ∀ x ∈ strBytes lenField, HeaderByte x) :
    parseLoose (strBytes t ++ 32 :: strBytes lenField ++ 0 :: payload) = Except.ok ⟨t, payload⟩ := by
  have hheader : strBytes t ++ 32 :: strBytes lenField ++ 0 :: payload =
      (strBytes t ++ 32 :: strBytes lenField) ++ 0 :: payload := by
    simp
  have hno0 : ∀ x ∈ strBytes t ++ 32 :: strBytes lenField, x ≠ 0 := by
    intro x hx
    rcases List.mem_append.mp hx with h1 | h1
    · exact (ht x h1).2.1
    · rcases List.mem_cons.mp h1 with h2 | h2
      · subst h2; decide
      · exact (hlf x h2).2.1
  have hsplit := splitAtNull_append _ payload hno0
  have hascii : (strBytes t ++ 32 :: strBytes lenField).all
      (fun b => decide (b < 128)) = true := by
    rw [List.all_eq_true]
    intro x hx
    rcases List.mem_append.mp hx with h1 | h1
    · simpa using (ht x h1).1
    · rcases List.mem_cons.mp h1 with h2 | h2
      · subst h2; decide
      · simpa using (hlf x h2).1
  have hsp : splitOnElem 32 (strBytes t ++ 32 :: strBytes lenField) =
      [strBytes t, strBytes lenField] := by
    rw [splitOnElem_append 32 _ _ (fun x hx => (ht x hx).2.2),
      splitOnElem_no_sep 32 _ (fun x hx => (hlf x hx).2.2)]
  rw [hheader]
  simp only [parseLoose, hsplit, hascii, hsp, if_true]
  simp [mk_map_ofNat_strBytes]

/-- Parsing the framed bytes of an object recovers the type and the payload,
for any type string of header bytes. -/
theorem parseLoose_frame (t : String) (data : Bytes)
    (ht : ∀ x ∈ strBytes t, HeaderByte x) :
    parseLoose (frameBytes t data) = Except.ok ⟨t, data⟩ := by
  have hshape : frameBytes t data =
      strBytes t ++ 32 :: strBytes (toString data.length) ++ 0 :: data := by
    simp [frameBytes, strBytes_append, strBytes_space]
  rw [hshape]
  exact parseLoose_header t (toString data.length) data ht (natToString_headerByte data.length)

/-! Lemmas about the file-system model. -/

theorem fsRead_write_self (fs : FS) (p : Path) (b : Bytes) :
    fsRead (fsWrite fs p b) p = some b := by
  simp [fsRead, fsWrite]

theorem fsRead_write_ne (fs : FS) (p q : Path) (b : Bytes) (h : p ≠ q) :
    fsRead (fsWrite fs p b) q = fsRead fs q := by
  simp [fsWrite, fsRead, if_neg h]

/-! Lemmas about SHA-1 output shape and hex rendering. -/

theorem toBE_length (w x : Nat) : (toBE w x).length = w := by simp [toBE]

theorem toBE_lt (w x : Nat) : ∀ b ∈ toBE w x, b < 256 := by
  intro b hb
  simp only [toBE, List.mem_map] at hb
  obtain ⟨i, _, rfl⟩ := hb
  exact Nat.mod_lt _ (by norm_num)

theorem sha1_length (msg : Bytes) : (sha1 msg).length = 20 := by
  simp [sha1, toBE_length]

theorem sha1_lt (msg : Bytes) : ∀ b ∈ sha1 msg, b < 256 := by
  intro b hb
  simp only [sha1] at hb
  rcases List.mem_append.mp hb with h | h
  · rcases List.mem_append.mp h with h | h
    · rcases List.mem_append.mp h with h | h
      · rcases List.mem_append.mp h with h | h
        · exact toBE_lt _ _ _ h
        · exact toBE_lt _ _ _ h
      · exact toBE_lt _ _ _ h
    · exact toBE_lt _ _ _ h
  · exact toBE_lt _ _ _ h

def hexAlphabet : List Char := "0123456789abcdef".data

theorem hexDigit_mem (n : Nat) (h : n < 16) : hexDigit n ∈ hexAlphabet := by
  interval_cases n <;> decide

theorem hexEncode_data (bs : Bytes) : (hexEncode bs).data =
    bs.foldr (fun x acc => hexDigit (x / 16) :: hexDigit (x % 16) :: acc) [] := rfl

theorem hexEncode_length (bs : Bytes) : (hexEncode bs).length = 2 * bs.length := by
  show (hexEncode bs).data.length = 2 * bs.length
  rw [hexEncode_data]
  induction bs with
  | nil => rfl
  | cons b rest ih => simp [ih]; ring

theorem hexEncode_mem (bs : Bytes) (hb : ∀ b ∈ bs, b < 256) :
    ∀ c ∈ (hexEncode bs).data, c ∈ hexAlphabet := by
  rw [hexEncode_data]
  induction bs with
  | nil => intro c hc; cases hc
  | cons b rest ih =>
    intro c hc
    have hblt : b < 256 := hb b (List.mem_cons_self b rest)
    rcases List.mem_cons.mp hc with h1 | h1
    · subst h1; exact hexDigit_mem _ (Nat.div_lt_of_lt_mul (by omega))
    · rcases List.mem_cons.mp h1 with h2 | h2
      · subst h2; exact hexDigit_mem _ (Nat.mod_lt _ (by norm_num))
      · exact ih (fun x hx => hb x (List.mem_cons_of_mem b hx)) c h2

theorem hexAlphabet_headerByte : ∀ c ∈ hexAlphabet, HeaderByte c.toNat ∧ isWs c = false := by
  decide

theorem contains_of_mem {c : Char} {l : List Char} (h : c ∈ l) : l.contains c = true := by
  induction l with
  | nil => cases h
  | cons a as ih =>
    rcases List.mem_cons.mp h with h1 | h1
    · subst h1; simp [List.contains]
    · simp [List.contains, List.elem_cons]
      rcases instDecidableEqChar a c with hne | heq
      · exact Or.inr (by simpa [List.contains] using ih h1)
      · exact Or.inl heq.symm

/-- Reading back an object just written with write_object, over a store whose
slot for that object is either empty or holds the canonical compressed bytes
(the content-addressing invariant). -/
theorem read_after_write (z : Zlib) (fs : FS) (data : Bytes) (t : String) (fuel : Nat)
    (hz : ZlibOk z) (ht : ∀ x ∈ strBytes t, HeaderByte x)
    (hstore : fsRead fs (loosePath objectsDirPath (hash_object data t)) = none ∨
      fsRead fs (loosePath objectsDirPath (hash_object data t)) =
        some (z.deflate (frameBytes t data))) :
    read_object z (write_object z fs objectsDirPath data t).1 (fuel + 1)
      (write_object z fs objectsDirPath data t).2 = Except.ok ⟨t, data⟩ := by
  rcases hstore with hn | hs
  · have hw : write_object z fs objectsDirPath data t =
        (fsWrite fs (loosePath objectsDirPath (hash_object data t))
          (z.deflate (frameBytes t data)), hash_object data t) := by
      simp [write_object, hn]
    rw [hw]
    simp only [read_object, fsRead_write_self, hz (frameBytes t data)]
    exact parseLoose_frame t data ht
  · have hw : write_object z fs objectsDirPath data t = (fs, hash_object data t) := by
      simp [write_object, hs]
    rw [hw]
    simp only [read_object, hs, hz (frameBytes t data)]
    exact parseLoose_frame t data ht

/-! Claim theorems. -/

/-- Claim C4: for every payload P and type T, hash(P, T) equals the SHA-1
digest of TYPE, one ASCII space, the decimal byte length of P, one zero byte,
then P, presented as 40 lowercase hexadecimal characters (proved for every
type string, hence in particular for blob, tree, commit and tag). -/
theorem claim_C4 (data : Bytes) (t : String) :
    hash_object data t = hexEncode (sha1 (specFrame t data)) ∧
    (hash_object data t).length = 40 ∧
    ((hash_object data t).data.all (fun c => hexAlphabet.contains c)) = true := by
  have hframe : frameBytes t data = specFrame t data := by
    simp [frameBytes, specFrame, strBytes_append, strBytes_space]
  refine ⟨by rw [hash_object, hframe], ?_, ?_⟩
  · rw [hash_object, hexEncode_length, sha1_length]
  · rw [List.all_eq_true]
    intro c hc
    exact contains_of_mem (hexEncode_mem _ (sha1_lt _) c hc)

/-- Claim C5: writing a loose object with write_object and reading the
returned OID back through the object read path recovers exactly the pair
(type, payload), for each of the four object kinds, over any store whose slot
for that OID is free or already holds the canonical bytes. -/
theorem claim_C5 (z : Zlib) (fs : FS) (data : Bytes) (t : String) (fuel : Nat)
    (hz : ZlibOk z)
    (ht : t = "blob" ∨ t = "tree" ∨ t = "commit" ∨ t = "tag")
    (hstore : fsRead fs (loosePath objectsDirPath (hash_object data t)) = none ∨
      fsRead fs (loosePath objectsDirPath (hash_object data t)) =
        some (z.deflate (frameBytes t data))) :
    read_object z (write_object z fs objectsDirPath data t).1 (fuel + 1)
      (write_object z fs objectsDirPath data t).2 = Except.ok ⟨t, data⟩ := by
  refine read_after_write z fs data t fuel hz ?_ hstore
  rcases ht with rfl | rfl | rfl | rfl <;> decide

/-- Witness for claim C5 at the blob of scenario 2 of the specification. -/
theorem claim_C5_witness :
    read_object idZlib (write_object idZlib [] objectsDirPath (strBytes "hi\n") "blob").1 1
      (write_object idZlib [] objectsDirPath (strBytes "hi\n") "blob").2 =
      Except.ok ⟨"blob", strBytes "hi\n"⟩ :=
  claim_C5 idZlib [] (strBytes "hi\n") "blob" 0 idZlib_ok (Or.inl rfl) (Or.inl rfl)

/-- Loose object whose header announces length 999 for a 2-byte payload. -/
def c9FS : FS :=
  [(loosePath objectsDirPath "aabbccdd", strBytes "blob 999" ++ 0 :: [104, 105])]

/-- Counterexample to claim C9: the stored header says LEN 999 while the
payload has 2 bytes, yet the read succeeds and returns the pair instead of
failing with a corruption error — the length field is never verified. -/
theorem claim_C9_counterexample :
    read_object idZlib c9FS 1 "aabbccdd" = Except.ok ⟨"blob", [104, 105]⟩ := rfl

/-- Claim C9 as amended: the loose read parses TYPE SP FIELD NUL and returns
(TYPE, payload) for any second header field, without comparing the field to
the payload length; a missing file (with no pack directory) is reported as
not found. -/
theorem claim_C9_amended :
    (∀ (z : Zlib) (fs : FS) (oid : String) (comp : Bytes) (t lenField : String)
      (payload : Bytes) (fuel : Nat),
      fsRead fs (loosePath objectsDirPath oid) = some comp →
      z.inflate comp = some (strBytes t ++ 32 :: strBytes lenField ++ 0 :: payload) →
      (∀ x ∈ strBytes t, HeaderByte x) → (∀ x ∈ strBytes lenField, HeaderByte x) →
      read_object z fs (fuel + 1) oid = Except.ok ⟨t, payload⟩) ∧
    (∀ (z : Zlib) (fs : FS) (oid : String) (fuel : Nat),
      fsRead fs (loosePath objectsDirPath oid) = none →
      fsDirExists fs packDirPath = false →
      read_object z fs (fuel + 1) oid = Except.error (GitError.notFound oid)) := by
  constructor
  · intro z fs oid comp t lenField payload fuel hread hinf ht hlf
    simp only [read_object, hread, hinf]
    exact parseLoose_header t lenField payload ht hlf
  · intro z fs oid fuel hread hdir
    simp only [read_object, hread, hdir]
    simp

/-- Store holding one readable loose blob, the input on which repack destroys
data. -/
def c1FS : FS := [looseEntry "aabbccdd" "blob" [104, 105]]

/-- Claim C1 (demonstrating the code bug): before repack the loose blob is
readable; repack deletes its loose copy while writing an empty pack file, so
afterwards the loose slot is gone, the only pack is empty, and the read path
fails — the object was deleted without having been packed. -/
theorem claim_C1_bug :
    read_object idZlib c1FS 1 "aabbccdd" = Except.ok ⟨"blob", [104, 105]⟩ ∧
    fsRead (repackFS c1FS "1") (loosePath objectsDirPath "aabbccdd") = none ∧
    fsRead (repackFS c1FS "1") (packDirPath ++ ["pack-1.pack"]) = some [] ∧
    read_object idZlib (repackFS c1FS "1") 1 "aabbccdd" = Except.error GitError.io :=
  ⟨rfl, rfl, rfl, rfl⟩

/-- Repository state right after init with one staged file, the input on which
commit writes the commit object into the wrong directory. -/
def c2St0 : RepoSt :=
  { fs := (initFS idZlib "0 +0000").1,
    index := ⟨[("a.txt", ⟨0, hash_object (strBytes "hi\n") "blob", 33188⟩)]⟩,
    indexFile := none }

/-- The result state and commit id of running commit on c2St0. -/
def c2Out : RepoSt × Option String :=
  ((commitExecute idZlib c2St0 "msg" "1 +0000").toOption).getD (c2St0, none)

def c2Cid : String := "a25348ef468386b326eecf74c077083c11068810"

/-- Claim C2 (demonstrating the code bug): commit succeeds and advances
refs/heads/master to the new OID, but reading that OID through the object
read path fails with not-found, because commit.rs hands repo.git_dir instead
of the objects directory to write_commit, leaving the commit object at
.git/a2/5348... instead of .git/objects/a2/5348... . -/
theorem claim_C2_bug :
    c2Out.2 = some c2Cid ∧
    read_ref c2Out.1.fs "refs/heads/master" = Except.ok c2Cid ∧
    read_object idZlib c2Out.1.fs 2 c2Cid = Except.error (GitError.notFound c2Cid) ∧
    (fsRead c2Out.1.fs (loosePath gitDirPath c2Cid)).isSome = true :=
  ⟨rfl, rfl, rfl, rfl⟩

/-- Loose tree object whose header length field is the non-numeric 7xy. -/
def c9bFS : FS :=
  [(loosePath objectsDirPath "ffee0011", strBytes "tree 7xy" ++ 0 :: [1, 2, 3])]

/-- Witness for the amended claim C9: a non-numeric length field is accepted
and an absent object on an empty store reports not found. -/
theorem claim_C9_amended_witness :
    read_object idZlib c9bFS 1 "ffee0011" = Except.ok ⟨"tree", [1, 2, 3]⟩ ∧
    read_object idZlib [] 1 "ffee0011" = Except.error (GitError.notFound "ffee0011") :=
  ⟨claim_C9_amended.1 idZlib c9bFS "ffee0011" (strBytes "tree 7xy" ++ 0 :: [1, 2, 3])
      "tree" "7xy" [1, 2, 3] 0 rfl rfl (by decide) (by decide),
    claim_C9_amended.2 idZlib [] "ffee0011" 0 rfl rfl⟩

/-! Soundness of the merge-base walks. -/

theorem mem_of_contains {s : String} {l : List String} (h : l.contains s = true) : s ∈ l :=
  List.mem_of_elem_eq_true h

/-- Definitional unfolding of one ancestorsWalk step. -/
theorem ancestorsWalk_cons (z : Zlib) (fs : FS) (rfuel fuel : Nat) (c : String)
    (rest seen : List String) :
    ancestorsWalk z fs rfuel (fuel + 1) (c :: rest) seen =
      if seen.contains c then ancestorsWalk z fs rfuel fuel rest seen
      else ancestorsWalk z fs rfuel fuel ((commitParents z fs rfuel c).reverse ++ rest)
        (c :: seen) := rfl

/-- Definitional unfolding of one mergeBaseWalk step. -/
theorem mergeBaseWalk_cons (z : Zlib) (fs : FS) (rfuel : Nat) (anc : List String)
    (fuel : Nat) (c : String) (rest visited : List String) :
    mergeBaseWalk z fs rfuel anc (fuel + 1) (c :: rest) visited =
      if visited.contains c then mergeBaseWalk z fs rfuel anc fuel rest visited
      else if anc.contains c then some c
      else mergeBaseWalk z fs rfuel anc fuel ((commitParents z fs rfuel c).reverse ++ rest)
        (c :: visited) := rfl

theorem ancestorsWalk_sound (z : Zlib) (fs : FS) (rfuel : Nat) (a : String) :
    ∀ (fuel : Nat) (stack seen : List String),
      (∀ s ∈ stack, Reaches z fs rfuel a s) → (∀ s ∈ seen, Reaches z fs rfuel a s) →
      ∀ x ∈ ancestorsWalk z fs rfuel fuel stack seen, Reaches z fs rfuel a x := by
  intro fuel
  induction fuel with
  | zero => intro stack seen _ hsn x hx; exact hsn x hx
  | succ fuel ih =>
    intro stack seen hst hsn x hx
    cases stack with
    | nil => exact hsn x hx
    | cons c rest =>
      have hc := hst c (List.mem_cons_self c rest)
      rw [ancestorsWalk_cons] at hx
      rcases Bool.eq_false_or_eq_true (seen.contains c) with hv | hv
      · rw [if_pos hv] at hx
        exact ih rest seen (fun s hs => hst s (List.mem_cons_of_mem c hs)) hsn x hx
      · rw [if_neg (fun hcon => Bool.false_ne_true (hv ▸ hcon))] at hx
        refine ih _ _ ?_ ?_ x hx
        · intro s hs
          rcases List.mem_append.mp hs with h1 | h1
          · exact Relation.ReflTransGen.tail hc (List.mem_reverse.mp h1)
          · exact hst s (List.mem_cons_of_mem c h1)
        · intro s hs
          rcases List.mem_cons.mp hs with h1 | h1
          · subst h1; exact hc
          · exact hsn s h1

theorem mergeBaseWalk_sound (z : Zlib) (fs : FS) (rfuel : Nat) (anc : List String) (b : String) :
    ∀ (fuel : Nat) (stack visited : List String) (M : String),
      (∀ s ∈ stack, Reaches z fs rfuel b s) →
      mergeBaseWalk z fs rfuel anc fuel stack visited = some M →
      M ∈ anc ∧ Reaches z fs rfuel b M := by
  intro fuel
  induction fuel with
  | zero => intro stack visited M _ h; cases h
  | succ fuel ih =>
    intro stack visited M hst h
    cases stack with
    | nil => cases h
    | cons c rest =>
      have hc := hst c (List.mem_cons_self c rest)
      rw [mergeBaseWalk_cons] at h
      rcases Bool.eq_false_or_eq_true (visited.contains c) with hv | hv
      · rw [if_pos hv] at h
        exact ih rest visited M (fun s hs => hst s (List.mem_cons_of_mem c hs)) h
      · rw [if_neg (fun hcon => Bool.false_ne_true (hv ▸ hcon))] at h
        rcases Bool.eq_false_or_eq_true (anc.contains c) with ha | ha
        · rw [if_pos ha] at h
          cases h
          exact ⟨mem_of_contains ha, hc⟩
        · rw [if_neg (fun hcon => Bool.false_ne_true (ha ▸ hcon))] at h
          refine ih _ _ M ?_ h
          intro s hs
          rcases List.mem_append.mp hs with h1 | h1
          · exact Relation.ReflTransGen.tail hc (List.mem_reverse.mp h1)
          · exact hst s (List.mem_cons_of_mem c h1)

/-- Commit graph for the counterexample and witness of claim C8 is cGraphFS:
m1m1 (= a) has parent m2m2; bbbb (= b) has parents m1m1 then xxxx, and xxxx
has parent m2m2. -/
theorem cGraph_edge_b_m1 : parentEdge idZlib cGraphFS 3 "bbbb" "m1m1" := by
  show "m1m1" ∈ commitParents idZlib cGraphFS 3 "bbbb"
  decide

/-- Counterexample to claim C8: the source walk is stack-driven (depth-first),
so on cGraphFS it returns m2m2, while the breadth-first search the claim
describes returns m1m1; moreover m1m1 is a common ancestor of both inputs and
a proper descendant of the returned m2m2 (its parent list is exactly [m2m2]),
so the returned OID does have a proper descendant that is a common ancestor. -/
theorem claim_C8_counterexample :
    find_merge_base idZlib cGraphFS 3 20 "m1m1" "bbbb" = some "m2m2" ∧
    mergeBaseSpecBfs idZlib cGraphFS 3 20 "m1m1" "bbbb" = some "m1m1" ∧
    ("m1m1" : String) ≠ "m2m2" ∧
    commitParents idZlib cGraphFS 3 "m1m1" = ["m2m2"] ∧
    Reaches idZlib cGraphFS 3 "m1m1" "m1m1" ∧
    Reaches idZlib cGraphFS 3 "bbbb" "m1m1" :=
  ⟨rfl, rfl, by decide, rfl, Relation.ReflTransGen.refl,
    Relation.ReflTransGen.single cGraph_edge_b_m1⟩

/-- Claim C8 as amended: merge_base drains a stack (depth-first, not
breadth-first) over the ancestors of a, then searches from b the same way and
returns the first stack element found in the ancestor set; any returned M is a
common ancestor (reachable from a and from b along parent edges), and when no
common ancestor exists the result is none; minimality does not hold, a proper
descendant of M may also be a common ancestor. -/
theorem claim_C8_amended (z : Zlib) (fs : FS) (rfuel wfuel : Nat) (a b M : String) :
    (find_merge_base z fs rfuel wfuel a b = some M →
      Reaches z fs rfuel a M ∧ Reaches z fs rfuel b M) ∧
    ((∀ N, ¬(Reaches z fs rfuel a N ∧ Reaches z fs rfuel b N)) →
      find_merge_base z fs rfuel wfuel a b = none) := by
  constructor
  · intro h
    have hb := mergeBaseWalk_sound z fs rfuel
      (ancestorsWalk z fs rfuel wfuel [a] []) b wfuel [b] [] M
      (by intro s hs
          rcases List.mem_cons.mp hs with h1 | h1
          · subst h1; exact Relation.ReflTransGen.refl
          · cases h1)
      h
    refine ⟨?_, hb.2⟩
    refine ancestorsWalk_sound z fs rfuel a wfuel [a] [] ?_ ?_ M hb.1
    · intro s hs
      rcases List.mem_cons.mp hs with h1 | h1
      · subst h1; exact Relation.ReflTransGen.refl
      · cases h1
    · intro s hs; cases hs
  · intro hnone
    rcases hres : find_merge_base z fs rfuel wfuel a b with _ | M2
    · rfl
    · exfalso
      have hb := mergeBaseWalk_sound z fs rfuel
        (ancestorsWalk z fs rfuel wfuel [a] []) b wfuel [b] [] M2
        (by intro s hs
            rcases List.mem_cons.mp hs with h1 | h1
            · subst h1; exact Relation.ReflTransGen.refl
            · cases h1)
        hres
      have ha := ancestorsWalk_sound z fs rfuel a wfuel [a] []
        (by intro s hs
            rcases List.mem_cons.mp hs with h1 | h1
            · subst h1; exact Relation.ReflTransGen.refl
            · cases h1)
        (by intro s hs; cases hs) M2 hb.1
      exact hnone M2 ⟨ha, hb.2⟩

/-- Witness for the amended claim C8: on cGraphFS the returned base m2m2 is
reachable from both inputs. -/
theorem claim_C8_amended_witness :
    Reaches idZlib cGraphFS 3 "m1m1" "m2m2" ∧ Reaches idZlib cGraphFS 3 "bbbb" "m2m2" :=
  (claim_C8_amended idZlib cGraphFS 3 20 "m1m1" "bbbb" "m2m2").1 rfl

/-! Reduction lemmas for the Except monad used by the command embeddings. -/

theorem exceptBind_ok {ε α β : Type} (a : α) (f : α → Except ε β) :
    (Except.ok a >>= f) = f a := rfl

theorem exceptBind_err {ε α β : Type} (e : ε) (f : α → Except ε β) :
    (Except.error e >>= f : Except ε β) = Except.error e := rfl

theorem exceptPure_eq {ε α : Type} (a : α) : (pure a : Except ε α) = Except.ok a := rfl

/-! Claim C3: push-mode bundle ingestion. -/

/-- Receiver for the push counterexample: branch b1 at aa11 and b2 at cc33;
bb22 descends from aa11 while dd44 is unrelated to cc33. -/
def c3ReceiverFS : FS :=
  [(gitDirPath ++ pathOf "refs/heads/b1", strBytes "aa11\n"),
   (gitDirPath ++ pathOf "refs/heads/b2", strBytes "cc33\n"),
   looseEntry "aa11" "commit" (strBytes "tree t0t0\n\nr1\n"),
   looseEntry "cc33" "commit" (strBytes "tree t0t0\n\nr2\n"),
   looseEntry "bb22" "commit" (strBytes "tree t0t0\nparent aa11\n\ns1\n"),
   looseEntry "dd44" "commit" (strBytes "tree t0t0\n\ns2\n")]

/-- Bundle pushing b1 to bb22 (a fast-forward) and b2 to dd44 (not a
fast-forward). -/
def c3Bundle : Bundle :=
  { objects := [],
    packedRefs := some (strBytes "bb22 refs/heads/b1\ndd44 refs/heads/b2\n"),
    headFile := none }

/-- Counterexample to claim C3: the push fails with NonFastForward on b2, yet
the receiver's state has been altered - b1, processed earlier in the same
ingestion, was already advanced from aa11 to bb22 before the failure. -/
theorem claim_C3_counterexample :
    (unbundle idZlib 3 20 c3ReceiverFS c3Bundle none).1 =
      some (GitError.nonFastForward "refs/heads/b2") ∧
    read_ref c3ReceiverFS "refs/heads/b1" = Except.ok "aa11" ∧
    read_ref (unbundle idZlib 3 20 c3ReceiverFS c3Bundle none).2 "refs/heads/b1" =
      Except.ok "bb22" ∧
    read_ref (unbundle idZlib 3 20 c3ReceiverFS c3Bundle none).2 "refs/heads/b2" =
      Except.ok "cc33" :=
  ⟨rfl, rfl, rfl, rfl⟩

/-- Claim C3 as amended: each packed-refs line in push mode follows the
claimed per-ref contract - create when absent, no-op when equal, advance when
the old OID is an ancestor of the new one, abort with NonFastForward
otherwise, leaving that ref unchanged - but a NonFastForward aborts the whole
loop and the receiver keeps the updates of the lines already processed (and
any objects already copied); only the failing and the following refs are left
unchanged. -/
theorem claim_C3_amended :
    (∀ (z : Zlib) (rf wf : Nat) (fs : FS) (line cid ref : String),
      rustSplitSpace line = [cid, ref] → rustStartsWith ref refsHeadsPre = true →
      ((∀ e, read_ref fs ref = Except.error e →
          processRefLine z rf wf none fs line = (none, update_ref fs ref cid)) ∧
        (read_ref fs ref = Except.ok cid →
          processRefLine z rf wf none fs line = (none, fs)) ∧
        (∀ old, read_ref fs ref = Except.ok old → old ≠ cid →
          is_ancestor z fs rf wf old cid = true →
          processRefLine z rf wf none fs line = (none, update_ref fs ref cid)) ∧
        (∀ old, read_ref fs ref = Except.ok old → old ≠ cid →
          is_ancestor z fs rf wf old cid = false →
          processRefLine z rf wf none fs line =
            (some (GitError.nonFastForward ref), fs)))) ∧
    (∀ (z : Zlib) (rf wf : Nat) (fs fs1 : FS) (l1 : List String) (line : String)
      (l2 : List String) (e : GitError),
      processRefLines z rf wf none fs l1 = (none, fs1) →
      processRefLine z rf wf none fs1 line = (some e, fs1) →
      processRefLines z rf wf none fs (l1 ++ line :: l2) = (some e, fs1)) := by
  constructor
  · intro z rf wf fs line cid ref hsplit hpre
    refine ⟨?_, ?_, ?_, ?_⟩
    · intro e he
      simp only [processRefLine, hsplit, hpre, if_pos, he]
    · intro hok
      simp only [processRefLine, hsplit, hpre, if_pos, hok, if_pos rfl]
    · intro old hok hne hanc
      simp only [processRefLine, hsplit, hpre, if_pos, hok, if_neg hne, hanc, if_pos rfl]
    · intro old hok hne hanc
      simp only [processRefLine, hsplit, hpre, if_pos, hok, if_neg hne, hanc]
      simp
  · intro z rf wf fs fs1 l1
    induction l1 generalizing fs with
    | nil =>
      intro line l2 e h1 h2
      simp only [processRefLines] at h1
      cases h1
      simp only [List.nil_append, processRefLines, h2]
    | cons l0 ls ih =>
      intro line l2 e h1 h2
      simp only [processRefLines] at h1
      rcases hp : processRefLine z rf wf none fs l0 with ⟨e0, fs0⟩
      rw [hp] at h1
      cases e0 with
      | some e0v => simp at h1
      | none =>
        simp only [List.cons_append, processRefLines, hp]
        exact ih fs0 line l2 e h1 h2

/-- Witness for the amended claim C3 on the push fixture: the first line
advances b1, and with that line as prefix the failing second line aborts the
loop while retaining b1's update. -/
theorem claim_C3_amended_witness :
    processRefLine idZlib 3 20 none c3ReceiverFS "bb22 refs/heads/b1" =
      (none, update_ref c3ReceiverFS "refs/heads/b1" "bb22") ∧
    processRefLines idZlib 3 20 none c3ReceiverFS
      ["bb22 refs/heads/b1", "dd44 refs/heads/b2"] =
      (some (GitError.nonFastForward "refs/heads/b2"),
        update_ref c3ReceiverFS "refs/heads/b1" "bb22") :=
  ⟨(claim_C3_amended.1 idZlib 3 20 c3ReceiverFS "bb22 refs/heads/b1" "bb22"
      "refs/heads/b1" rfl rfl).2.2.1 "aa11" rfl (by decide) rfl,
    claim_C3_amended.2 idZlib 3 20 c3ReceiverFS
      (update_ref c3ReceiverFS "refs/heads/b1" "bb22") ["bb22 refs/heads/b1"]
      "dd44 refs/heads/b2" [] (GitError.nonFastForward "refs/heads/b2") rfl rfl⟩

/-! Claim C7: a conflicting merge leaves the repository untouched. -/

/-- Claim C7: whenever the three-way reconciliation finds at least one
conflict, merge returns Ok with the conflict messages and the repository state
exactly as it was - no merge commit is written, no ref is advanced, the
working tree and index are untouched. -/
theorem claim_C7 (z : Zlib) (rfuel wfuel mtime : Nat) (ts : String) (st : RepoSt)
    (b cur curId mrgId : String) (base? : Option String)
    (curFiles mrgFiles baseFiles : List (String × String)) (acc : MergeAcc)
    (h1 : current_branch st.fs = Except.ok cur)
    (h2 : cur ≠ b)
    (h3 : read_ref st.fs (refsHeadsPre ++ cur) = Except.ok curId)
    (h4 : read_ref st.fs (refsHeadsPre ++ b) = Except.ok mrgId)
    (h5 : curId ≠ mrgId)
    (h6 : find_merge_base z st.fs rfuel wfuel curId mrgId = base?)
    (h7 : get_files_from_commit z st.fs rfuel curId = Except.ok curFiles)
    (h8 : get_files_from_commit z st.fs rfuel mrgId = Except.ok mrgFiles)
    (h9 : (match base? with
            | some bc => get_files_from_commit z st.fs rfuel bc
            | none => Except.ok ([] : List (String × String))) = Except.ok baseFiles)
    (h10 : mergeReconcile z st.fs rfuel baseFiles curFiles mrgFiles = Except.ok acc)
    (h11 : acc.conflictFound = true) :
    mergeExecute z rfuel wfuel mtime ts st b =
      Except.ok (st, MergeOutcome.conflicts acc.msgs) := by
  unfold mergeExecute
  rw [h1, exceptBind_ok, if_neg h2, h3, exceptBind_ok, h4]
  cases base? with
  | none =>
    have h9a : ([] : List (String × String)) = baseFiles :=
      Except.ok.inj (h9 : Except.ok ([] : List (String × String)) = Except.ok baseFiles)
    subst h9a
    simp only [exceptBind_ok, exceptPure_eq, if_neg h5, h6, h7, h8, h10, h11, if_true]
  | some bc =>
    have h9a : get_files_from_commit z st.fs rfuel bc = Except.ok baseFiles := h9
    simp only [exceptBind_ok, exceptPure_eq, if_neg h5, h6, h7, h8, h9a, h10, h11, if_true]

/-- Blob identities for the conflict fixture. -/
def blobA : Bytes := List.replicate 20 1
def blobB : Bytes := List.replicate 20 2
def blobC : Bytes := List.replicate 20 3

/-- Repository with an edit/edit conflict: both master (c1c1) and feat (c2c2)
changed file a of their base c0c0, to different blobs. -/
def c7St : RepoSt :=
  { fs :=
      [(gitDirPath ++ [headName], strBytes "ref: refs/heads/master\n"),
       (gitDirPath ++ pathOf "refs/heads/master", strBytes "c1c1\n"),
       (gitDirPath ++ pathOf "refs/heads/feat", strBytes "c2c2\n"),
       looseEntry "c0c0" "commit" (strBytes "tree t0t0\n\nbase\n"),
       looseEntry "c1c1" "commit" (strBytes "tree t1t1\nparent c0c0\n\nours\n"),
       looseEntry "c2c2" "commit" (strBytes "tree t2t2\nparent c0c0\n\ntheirs\n"),
       looseEntry "t0t0" "tree" (strBytes "100644 a" ++ 0 :: blobA),
       looseEntry "t1t1" "tree" (strBytes "100644 a" ++ 0 :: blobB),
       looseEntry "t2t2" "tree" (strBytes "100644 a" ++ 0 :: blobC),
       looseEntry (hexEncode blobA) "blob" (strBytes "x\n"),
       looseEntry (hexEncode blobB) "blob" (strBytes "y\n"),
       looseEntry (hexEncode blobC) "blob" (strBytes "z\n")],
    index := ⟨[("a", ⟨0, hexEncode blobB, 33188⟩)]⟩,
    indexFile := none }

/-- Witness for claim C7: on the edit/edit fixture, merge feat reports the
conflict in file a at line 1 and returns the state unchanged. -/
theorem claim_C7_witness :
    mergeExecute idZlib 4 20 0 "0 +0000" c7St "feat" =
      Except.ok (c7St, MergeOutcome.conflicts ["Merge conflict in a: 1"]) :=
  claim_C7 idZlib 4 20 0 "0 +0000" c7St "feat" "master" "c1c1" "c2c2" (some "c0c0")
    [("a", hexEncode blobB)] [("a", hexEncode blobC)] [("a", hexEncode blobA)]
    ⟨true, [("a", hexEncode blobB)], ["Merge conflict in a: 1"]⟩
    rfl (by decide) rfl rfl (by decide) rfl rfl rfl rfl rfl rfl

/-! Claim C6: write_tree. -/

/-- Index with a nested path and a top-level file. -/
def c6Idx : Index :=
  ⟨[("b/c", ⟨0, hexEncode blobA, 33188⟩), ("a", ⟨0, hexEncode blobB, 33188⟩)]⟩

/-- The flat tree bytes write_tree produces for c6Idx: two blob-mode entries
sorted by name, the second named by the full path b/c. -/
def c6TreeBytes : Bytes :=
  (strBytes "100644 a" ++ 0 :: blobB) ++ (strBytes "100644 b/c" ++ 0 :: blobA)

/-- Counterexample to claim C6: on an index holding b/c and a, write_tree
emits one single tree whose entries (as the source's own tree parser reads
them) are named a and b/c - the name b/c contains a slash and carries the blob
mode, and no subtree (mode 40000) object is built, contradicting the claimed
bottom-up grouping by directory. -/
theorem claim_C6_counterexample :
    write_tree idZlib [] c6Idx =
      Except.ok (write_object idZlib [] objectsDirPath c6TreeBytes "tree") ∧
    parseTreeLoop c6TreeBytes (c6TreeBytes.length + 1) 0 [] =
      Except.ok [("b/c", hexEncode blobA), ("a", hexEncode blobB)] ∧
    ("b/c".data.contains '/') = true :=
  ⟨rfl, rfl, rfl⟩

/-! Order facts for the write_tree comparator. -/

theorem charsLe_total : ∀ a b : List Char, charsLe a b = true ∨ charsLe b a = true := by
  intro a
  induction a with
  | nil => intro b; left; rfl
  | cons x xs ih =>
    intro b
    cases b with
    | nil => right; rfl
    | cons y ys =>
      simp only [charsLe]
      rcases Nat.lt_trichotomy x.toNat y.toNat with h | h | h
      · left; rw [if_pos h]
      · rcases ih ys with h2 | h2
        · left; rw [if_neg (by omega), if_pos h]; exact h2
        · right; rw [if_neg (by omega), if_pos h.symm]; exact h2
      · right; rw [if_pos h]

theorem charsLe_trans : ∀ a b c : List Char,
    charsLe a b = true → charsLe b c = true → charsLe a c = true := by
  intro a
  induction a with
  | nil => intro b c _ _; rfl
  | cons x xs ih =>
    intro b c hab hbc
    cases b with
    | nil => cases hab
    | cons y ys =>
      cases c with
      | nil => cases hbc
      | cons z zs =>
        simp only [charsLe] at hab hbc ⊢
        by_cases h1 : x.toNat < y.toNat
        · by_cases h2 : y.toNat < z.toNat
          · rw [if_pos (by omega)]
          · rw [if_neg h2] at hbc
            by_cases h3 : y.toNat = z.toNat
            · rw [if_pos (by omega : x.toNat < z.toNat)]
            · rw [if_neg h3] at hbc; cases hbc
        · rw [if_neg h1] at hab
          by_cases h1e : x.toNat = y.toNat
          · rw [if_pos h1e] at hab
            by_cases h2 : y.toNat < z.toNat
            · rw [if_pos (by omega)]
            · rw [if_neg h2] at hbc
              by_cases h3 : y.toNat = z.toNat
              · rw [if_pos h3] at hbc
                rw [if_neg (by omega : ¬ x.toNat < z.toNat),
                  if_pos (by omega : x.toNat = z.toNat)]
                exact ih ys zs hab hbc
              · rw [if_neg h3] at hbc; cases hbc
          · rw [if_neg h1e] at hab; cases hab

instance : IsTotal Bytes treeEntryLe :=
  ⟨fun a b => charsLe_total (entryName a).data (entryName b).data⟩

instance : IsTrans Bytes treeEntryLe :=
  ⟨fun _ _ _ hab hbc => charsLe_trans _ _ _ hab hbc⟩

/-- Raw bytes of a hex object id (total wrapper over hexDecode?). -/
def hexRaw (oid : String) : Bytes := (hexDecode? oid).getD []

theorem buildTreeEntries_ok (l : List (String × IndexEntry))
    (h : ∀ pr ∈ l, (hexDecode? pr.2.object_id).isSome = true ∧
      (hexRaw pr.2.object_id).length = 20) :
    buildTreeEntries l = Except.ok
      (l.map (fun pr => treeEntryBytes pr.1 pr.2.mode (hexRaw pr.2.object_id))) := by
  induction l with
  | nil => rfl
  | cons pr rest ih =>
    obtain ⟨hsome, hlen⟩ := h pr (List.mem_cons_self pr rest)
    obtain ⟨raw, hraw⟩ := Option.isSome_iff_exists.mp hsome
    have hr : hexRaw pr.2.object_id = raw := by simp [hexRaw, hraw]
    have hlen20 : ¬ (raw.length ≠ 20) := by rw [← hr]; omega
    rcases pr with ⟨path, e⟩
    simp only [buildTreeEntries, hraw, if_neg hlen20,
      ih (fun q hq => h q (List.mem_cons_of_mem _ hq)), exceptBind_ok, exceptPure_eq]
    simp [hr]

theorem findIdx?_none_of_all {α : Type} (p : α → Bool) (l : List α)
    (h : ∀ x ∈ l, p x = false) : ∀ i, List.findIdx? p l i = none := by
  induction l with
  | nil => intro i; exact List.findIdx?_nil
  | cons a as ih =>
    intro i
    rw [List.findIdx?_cons, if_neg (by simp [h a (List.mem_cons_self a as)])]
    exact ih (fun x hx => h x (List.mem_cons_of_mem a hx)) (i + 1)

theorem lossyStr_strBytes (s : String) (h : ∀ c ∈ s.data, c.toNat < 128) :
    lossyStr (strBytes s) = s := by
  cases s with
  | mk l =>
    simp only [lossyStr, strBytes, List.map_map]
    congr 1
    have : ∀ c ∈ l, ((fun x => if x < 128 then Char.ofNat x else Char.ofNat 65533) ∘
        Char.toNat) c = c := by
      intro c hc
      simp only [Function.comp]
      rw [if_pos (h c hc)]
      exact Char.ofNat_toNat c
    exact (List.map_congr_left this).trans (List.map_id l)

/-- The shape of a mode-100644 tree entry. -/
theorem treeEntryBytes_shape (p : String) (raw : Bytes) :
    treeEntryBytes p 33188 raw =
      (strBytes "100644" ++ [32]) ++ (strBytes p ++ 0 :: raw) := by
  have h : octalStr 33188 = "100644" := rfl
  simp [treeEntryBytes, h, List.append_assoc]

/-- The comparator key of a mode-100644 entry is its full path. -/
theorem entryName_treeEntryBytes (p : String) (raw : Bytes)
    (hA : ∀ c ∈ p.data, c.toNat < 128 ∧ c.toNat ≠ 0) :
    entryName (treeEntryBytes p 33188 raw) = p := by
  rw [treeEntryBytes_shape]
  have hmode : ∀ x ∈ strBytes "100644", (x == 32) = false := by decide
  have h1 : List.findIdx? (fun b => b == 32)
      ((strBytes "100644" ++ [32]) ++ (strBytes p ++ 0 :: raw)) = some 6 := by
    have h6 : (strBytes "100644").length = 6 := rfl
    rw [List.append_assoc, List.findIdx?_append,
      findIdx?_none_of_all _ _ hmode 0]
    simp [List.findIdx?_cons, h6]
  have hplen : (strBytes p).length = p.data.length := by simp [strBytes]
  have hpzero : ∀ x ∈ strBytes p, (x == 0) = false := by
    intro x hx
    simp only [strBytes, List.mem_map] at hx
    obtain ⟨c, hc, rfl⟩ := hx
    simpa using (hA c hc).2
  have h2 : List.findIdx? (fun b => b == 0) (strBytes p ++ 0 :: raw) =
      some p.data.length := by
    rw [List.findIdx?_append, findIdx?_none_of_all _ _ hpzero 0]
    simp [List.findIdx?_cons, hplen]
  have hd : ((strBytes "100644" ++ [32]) ++ (strBytes p ++ 0 :: raw)).drop 7 =
      strBytes p ++ 0 :: raw := by
    have : (strBytes "100644" ++ [32]).length = 7 := rfl
    rw [← this, List.drop_left]
  simp only [entryName, h1, hd, h2]
  rw [← hplen, List.take_left]
  exact lossyStr_strBytes p (fun c hc => (hA c hc).1)

/-- Claim C6 as amended: write_tree builds a single flat tree object; every
index entry contributes MODE SP PATH NUL RAW with the full repo-relative path
(which may contain a slash) standing verbatim as the entry name and the octal
mode 100644, entries are sorted by entry name (string comparison of the
extracted names), and no subtree objects or 40000 entries exist - the written
payload is exactly the concatenation of the sorted entry blocks. -/
theorem claim_C6_amended (z : Zlib) (fs : FS) (idx : Index)
    (hmode : ∀ pr ∈ idx.entries, pr.2.mode = 33188)
    (hoid : ∀ pr ∈ idx.entries, (hexDecode? pr.2.object_id).isSome = true ∧
      (hexRaw pr.2.object_id).length = 20)
    (hpath : ∀ pr ∈ idx.entries, ∀ c ∈ pr.1.data, c.toNat < 128 ∧ c.toNat ≠ 0) :
    write_tree z fs idx = Except.ok (write_object z fs objectsDirPath
      (((idx.entries.map (fun pr => treeEntryBytes pr.1 33188 (hexRaw pr.2.object_id))).insertionSort
        treeEntryLe).flatten) "tree") ∧
    List.Pairwise treeEntryLe
      ((idx.entries.map (fun pr => treeEntryBytes pr.1 33188 (hexRaw pr.2.object_id))).insertionSort
        treeEntryLe) ∧
    ((idx.entries.map (fun pr => treeEntryBytes pr.1 33188 (hexRaw pr.2.object_id))).insertionSort
        treeEntryLe).Perm
      (idx.entries.map (fun pr => treeEntryBytes pr.1 33188 (hexRaw pr.2.object_id))) ∧
    (∀ bl ∈ (idx.entries.map (fun pr => treeEntryBytes pr.1 33188 (hexRaw pr.2.object_id))).insertionSort
        treeEntryLe,
      ∃ pr ∈ idx.entries, bl = treeEntryBytes pr.1 33188 (hexRaw pr.2.object_id) ∧
        entryName bl = pr.1) := by
  have hmap : idx.entries.map (fun pr => treeEntryBytes pr.1 pr.2.mode (hexRaw pr.2.object_id)) =
      idx.entries.map (fun pr => treeEntryBytes pr.1 33188 (hexRaw pr.2.object_id)) :=
    List.map_congr_left (fun pr hpr => by rw [hmode pr hpr])
  refine ⟨?_, ?_, List.perm_insertionSort _ _, ?_⟩
  · simp only [write_tree, buildTreeEntries_ok idx.entries hoid, exceptBind_ok,
      exceptPure_eq, hmap]
  · exact List.sorted_insertionSort treeEntryLe _
  · intro bl hbl
    have hmem : bl ∈ idx.entries.map
        (fun pr => treeEntryBytes pr.1 33188 (hexRaw pr.2.object_id)) :=
      (List.perm_insertionSort treeEntryLe _).mem_iff.mp hbl
    obtain ⟨pr, hpr, rfl⟩ := List.mem_map.mp hmem
    exact ⟨pr, hpr, rfl, entryName_treeEntryBytes pr.1 _ (hpath pr hpr)⟩

/-- Witness for the amended claim C6 on the two-entry index: the produced tree
is the flat sorted concatenation. -/
theorem claim_C6_amended_witness :
    write_tree idZlib [] c6Idx = Except.ok (write_object idZlib [] objectsDirPath
      (((c6Idx.entries.map (fun pr => treeEntryBytes pr.1 33188 (hexRaw pr.2.object_id))).insertionSort
        treeEntryLe).flatten) "tree") :=
  (claim_C6_amended idZlib [] c6Idx (by decide) (by decide) (by decide)).1

/-! Claim C10: repository initialization. -/

theorem fsRead_cons_self (p : Path) (b : Bytes) (fs : FS) :
    fsRead ((p, b) :: fs) p = some b := by simp [fsRead]

theorem fsRead_cons_ne (q p : Path) (b : Bytes) (fs : FS) (h : q ≠ p) :
    fsRead ((q, b) :: fs) p = fsRead fs p := by simp [fsRead, h]

theorem hash_object_chars (data : Bytes) (t : String) :
    ∀ c ∈ (hash_object data t).data, c ∈ hexAlphabet :=
  hexEncode_mem _ (sha1_lt _)

theorem oid_ascii (data : Bytes) (t : String) :
    ∀ c ∈ (hash_object data t).data, c.toNat < 128 :=
  fun c hc => ((hexAlphabet_headerByte c (hash_object_chars data t c hc)).1).1

theorem oid_nonws (data : Bytes) (t : String) :
    ∀ c ∈ (hash_object data t).data, isWs c = false :=
  fun c hc => (hexAlphabet_headerByte c (hash_object_chars data t c hc)).2

theorem bytesStr?_strBytes (s : String) (h : ∀ c ∈ s.data, c.toNat < 128) :
    bytesStr? (strBytes s) = some s := by
  have hall : (strBytes s).all (fun x => decide (x < 128)) = true := by
    rw [List.all_eq_true]
    intro x hx
    simp only [strBytes, List.mem_map] at hx
    obtain ⟨c, hc, rfl⟩ := hx
    simpa using h c hc
  simp only [bytesStr?, hall, if_true, mk_map_ofNat_strBytes]

theorem dropWhile_all_false {α : Type} (p : α → Bool) (l : List α)
    (h : ∀ x ∈ l, p x = false) : l.dropWhile p = l := by
  cases l with
  | nil => rfl
  | cons a as => rw [List.dropWhile_cons, if_neg (by simp [h a (List.mem_cons_self a as)])]

/-- Trimming a newline off a string of non-whitespace characters. -/
theorem rustTrim_append_newline (s : String) (h : ∀ c ∈ s.data, isWs c = false) :
    rustTrim (s ++ "\n") = s := by
  cases s with
  | mk l =>
    show String.mk ((((String.mk l ++ "\n").data.dropWhile isWs).reverse.dropWhile
      isWs).reverse) = String.mk l
    have hdata : (String.mk l ++ "\n").data = l ++ ['\n'] := by
      rw [String.data_append]
    rw [hdata]
    cases l with
    | nil => rfl
    | cons a as =>
      have ha : isWs a = false := h a (List.mem_cons_self a as)
      have hrest : ∀ c ∈ (a :: as), isWs c = false := h
      rw [List.cons_append, List.dropWhile_cons, if_neg (by simp [ha])]
      have hrev : ((a :: (as ++ ['\n'])) : List Char).reverse =
          '\n' :: (a :: as).reverse := by
        rw [show (a :: (as ++ ['\n'])) = (a :: as) ++ ['\n'] from rfl,
          List.reverse_append]
        rfl
      rw [hrev, List.dropWhile_cons, if_pos (by decide)]
      rw [dropWhile_all_false isWs ((a :: as).reverse)
        (fun c hc => hrest c (List.mem_reverse.mp hc))]
      rw [List.reverse_reverse]

/-- The commit payload init writes, parameterized by the timestamp. -/
def initCommitData (ts : String) : Bytes :=
  strBytes (commitContentStr emptyTreeOid [] "Initial commit" rustGitAuthor ts)

/-- The OID of the initial commit. -/
def initCid (ts : String) : String := hash_object (initCommitData ts) "commit"

/-- The first four files init writes. -/
def initBaseFS : FS :=
  [(gitDirPath ++ ["description"], strBytes initDescriptionContent),
   (gitDirPath ++ ["config"], strBytes initConfigContent),
   (gitDirPath ++ [headName], strBytes headRefMasterContent)]

/-- The init file system after the empty tree object is stored. -/
def initTreeFS (z : Zlib) : FS :=
  (loosePath objectsDirPath emptyTreeOid, z.deflate (frameBytes "tree" [])) :: initBaseFS

/-- The full init file system as an explicit list of entries. -/
def initFSListed (z : Zlib) (ts : String) : FS :=
  (gitDirPath ++ pathOf "refs/heads/master", strBytes (initCid ts ++ "\n")) ::
  (loosePath objectsDirPath (initCid ts),
    z.deflate (frameBytes "commit" (initCommitData ts))) ::
  initTreeFS z

theorem initFS_pair_eq (z : Zlib) (ts : String)
    (hne : loosePath objectsDirPath (initCid ts) ≠ loosePath objectsDirPath emptyTreeOid) :
    initFS z ts = (initFSListed z ts, initCid ts) := by
  have hoidT : hash_object ([] : Bytes) "tree" = emptyTreeOid := by decide
  have hTree : write_object z initBaseFS objectsDirPath [] "tree" =
      (initTreeFS z, emptyTreeOid) := by
    simp only [write_object, hoidT]
    rw [show fsRead initBaseFS (loosePath objectsDirPath emptyTreeOid) = none from rfl]
    simp [fsWrite, initTreeFS]
  have hne2 : loosePath objectsDirPath emptyTreeOid ≠
      loosePath objectsDirPath (hash_object (initCommitData ts) "commit") := Ne.symm hne
  have hread4 : fsRead (initTreeFS z)
      (loosePath objectsDirPath (hash_object (initCommitData ts) "commit")) = none := by
    show fsRead ((loosePath objectsDirPath emptyTreeOid, z.deflate (frameBytes "tree" [])) ::
      (gitDirPath ++ ["description"], strBytes initDescriptionContent) ::
      (gitDirPath ++ ["config"], strBytes initConfigContent) ::
      (gitDirPath ++ [headName], strBytes headRefMasterContent) :: []) _ = none
    rw [fsRead_cons_ne _ _ _ _ hne2,
      fsRead_cons_ne _ _ _ _ (by simp [gitDirPath, loosePath, objectsDirPath]),
      fsRead_cons_ne _ _ _ _ (by simp [gitDirPath, loosePath, objectsDirPath]),
      fsRead_cons_ne _ _ _ _ (by simp [gitDirPath, headName, loosePath, objectsDirPath])]
    rfl
  have key : write_commit z (initTreeFS z) objectsDirPath emptyTreeOid []
      "Initial commit" rustGitAuthor ts =
      ((loosePath objectsDirPath (initCid ts),
        z.deflate (frameBytes "commit" (initCommitData ts))) :: initTreeFS z,
        initCid ts) := by
    show write_object z (initTreeFS z) objectsDirPath (initCommitData ts) "commit" = _
    simp only [write_object]
    rw [hread4]
    simp [fsWrite, initCid]
  show (fsWrite (write_commit z (write_object z initBaseFS objectsDirPath [] "tree").1
      objectsDirPath emptyTreeOid [] "Initial commit" rustGitAuthor ts).1
      (gitDirPath ++ pathOf "refs/heads/master")
      (strBytes ((write_commit z (write_object z initBaseFS objectsDirPath [] "tree").1
        objectsDirPath emptyTreeOid [] "Initial commit" rustGitAuthor ts).2 ++ "\n")),
    (write_commit z (write_object z initBaseFS objectsDirPath [] "tree").1
      objectsDirPath emptyTreeOid [] "Initial commit" rustGitAuthor ts).2) =
    (initFSListed z ts, initCid ts)
  rw [hTree, show ((initTreeFS z, emptyTreeOid) : FS × String).1 = initTreeFS z from rfl,
    key]
  rfl

/-- Claim C10: init leaves HEAD attached to refs/heads/master; the master ref
holds the OID of a root commit whose payload names the canonical empty tree,
has no parent lines and carries the message Initial commit; that commit is
readable through the object read path; HEAD dereferences to it (so a later
first commit, which takes its parents from get_head_commit, gets it as its
parent); and the canonical empty tree object is stored and readable at its
fixed OID.  The hypothesis hne rules out a shard-path collision between the
fresh commit id and the empty-tree id. -/
theorem claim_C10 (z : Zlib) (ts : String) (fuel : Nat) (hz : ZlibOk z)
    (hne : loosePath objectsDirPath (initCid ts) ≠ loosePath objectsDirPath emptyTreeOid) :
    fsRead (initFS z ts).1 (gitDirPath ++ [headName]) =
      some (strBytes headRefMasterContent) ∧
    read_ref (initFS z ts).1 "refs/heads/master" = Except.ok (initFS z ts).2 ∧
    get_head_commit (initFS z ts).1 = Except.ok (initFS z ts).2 ∧
    read_object z (initFS z ts).1 (fuel + 1) (initFS z ts).2 =
      Except.ok ⟨"commit", initCommitData ts⟩ ∧
    read_object z (initFS z ts).1 (fuel + 1) emptyTreeOid =
      Except.ok ⟨"tree", []⟩ := by
  have hpair := initFS_pair_eq z ts hne
  have hne2 : loosePath objectsDirPath emptyTreeOid ≠
      loosePath objectsDirPath (initCid ts) := Ne.symm hne
  have hascii : ∀ c ∈ (initCid ts ++ "\n").data, c.toNat < 128 := by
    intro c hc
    rw [String.data_append] at hc
    rcases List.mem_append.mp hc with h1 | h1
    · exact oid_ascii (initCommitData ts) "commit" c h1
    · rcases List.mem_singleton.mp h1 with rfl
      decide
  have hnonws : ∀ c ∈ (initCid ts).data, isWs c = false :=
    oid_nonws (initCommitData ts) "commit"
  have hrefsread : fsRead (initFSListed z ts)
      (gitDirPath ++ pathOf "refs/heads/master") =
      some (strBytes (initCid ts ++ "\n")) := rfl
  have h2 : read_ref (initFSListed z ts) "refs/heads/master" =
      Except.ok (initCid ts) := by
    have hres : resolve_ref_path (initFSListed z ts) "refs/heads/master" =
        gitDirPath ++ pathOf "refs/heads/master" := rfl
    simp only [read_ref, hres, hrefsread, bytesStr?_strBytes _ hascii,
      rustTrim_append_newline _ hnonws]
  have hcommitread : fsRead (initFSListed z ts)
      (loosePath objectsDirPath (initCid ts)) =
      some (z.deflate (frameBytes "commit" (initCommitData ts))) := by
    show fsRead ((gitDirPath ++ pathOf "refs/heads/master", strBytes (initCid ts ++ "\n")) ::
      (loosePath objectsDirPath (initCid ts),
        z.deflate (frameBytes "commit" (initCommitData ts))) :: initTreeFS z) _ = _
    rw [fsRead_cons_ne _ _ _ _ (by
      show ([".git", "refs", "heads", "master"] : Path) ≠ _
      simp [loosePath, objectsDirPath])]
    rw [fsRead_cons_self]
  have htreeread : fsRead (initFSListed z ts)
      (loosePath objectsDirPath emptyTreeOid) =
      some (z.deflate (frameBytes "tree" [])) := by
    show fsRead ((gitDirPath ++ pathOf "refs/heads/master", strBytes (initCid ts ++ "\n")) ::
      (loosePath objectsDirPath (initCid ts),
        z.deflate (frameBytes "commit" (initCommitData ts))) ::
      (loosePath objectsDirPath emptyTreeOid, z.deflate (frameBytes "tree" [])) ::
      initBaseFS) _ = _
    rw [fsRead_cons_ne _ _ _ _ (by
      show ([".git", "refs", "heads", "master"] : Path) ≠ _
      simp [loosePath, objectsDirPath]),
      fsRead_cons_ne _ _ _ _ hne, fsRead_cons_self]
  rw [hpair]
  dsimp only
  refine ⟨rfl, h2, ?_, ?_, ?_⟩
  · have hheadread : fsRead (initFSListed z ts) (gitDirPath ++ [headName]) =
        some (strBytes headRefMasterContent) := rfl
    have hdec : bytesStr? (strBytes headRefMasterContent) =
        some headRefMasterContent := rfl
    have hsw : rustStartsWith headRefMasterContent refColonPre = true := rfl
    have hstrip : rustTrim (rustDropPre headRefMasterContent refColonPre) =
        "refs/heads/master" := rfl
    simp only [get_head_commit, hheadread, hdec, hsw, if_true, hstrip]
    exact h2
  · simp only [read_object, hcommitread, hz (frameBytes "commit" (initCommitData ts))]
    exact parseLoose_frame "commit" (initCommitData ts) (by decide)
  · simp only [read_object, htreeread, hz (frameBytes "tree" [])]
    exact parseLoose_frame "tree" [] (by decide)

/-- Witness for claim C10 at the concrete timestamp 0 +0000 with the identity
compressor. -/
theorem claim_C10_witness :
    read_ref (initFS idZlib "0 +0000").1 "refs/heads/master" =
      Except.ok (initFS idZlib "0 +0000").2 ∧
    read_object idZlib (initFS idZlib "0 +0000").1 1 (initFS idZlib "0 +0000").2 =
      Except.ok ⟨"commit", initCommitData "0 +0000"⟩ ∧
    read_object idZlib (initFS idZlib "0 +0000").1 1 emptyTreeOid =
      Except.ok ⟨"tree", []⟩ :=
  ⟨(claim_C10 idZlib "0 +0000" 0 idZlib_ok (by decide)).2.1,
    (claim_C10 idZlib "0 +0000" 0 idZlib_ok (by decide)).2.2.2.1,
    (claim_C10 idZlib "0 +0000" 0 idZlib_ok (by decide)).2.2.2.2⟩

end RustGit
